import Mathlib

/-!
Shallow embedding of `lib/Transforms/IPO/MergeFunctions.cpp`:
the function-merging pass (fingerprint, FunctionComparator, and the
MergeFunctions driver), together with theorems settling the claims
about it.
-/

set_option maxRecDepth 10000

namespace MergeFunc

/-- IR types, mirroring the `llvm::Type` kinds that `cmpType` dispatches on
(`Half` and `X86_MMX` are omitted: the pass never constructs them and no
claim mentions them). `struct_` fields and `func` parameters are lists. -/
inductive Ty : Type where
  | void
  | float
  | double
  | x86fp80
  | fp128
  | ppcfp128
  | label
  | metadata
  | integer (bits : Nat)
  | pointer (elem : Ty) (addrSpace : Nat)
  | vector (elem : Ty) (num : Nat)
  | array (elem : Ty) (num : Nat)
  | struct_ (packed : Bool) (fields : List Ty)
  | func (ret : Ty) (params : List Ty) (varArg : Bool)
  deriving Repr

mutual

/-- Structural (interned-handle) equality test on types. -/
def Ty.beq : Ty → Ty → Bool
  | .void, .void => true
  | .float, .float => true
  | .double, .double => true
  | .x86fp80, .x86fp80 => true
  | .fp128, .fp128 => true
  | .ppcfp128, .ppcfp128 => true
  | .label, .label => true
  | .metadata, .metadata => true
  | .integer a, .integer b => a == b
  | .pointer e a, .pointer e' a' => Ty.beq e e' && a == a'
  | .vector e n, .vector e' n' => Ty.beq e e' && n == n'
  | .array e n, .array e' n' => Ty.beq e e' && n == n'
  | .struct_ p fs, .struct_ p' fs' => p == p' && Ty.beqList fs fs'
  | .func r ps v, .func r' ps' v' => Ty.beq r r' && Ty.beqList ps ps' && v == v'
  | _, _ => false

def Ty.beqList : List Ty → List Ty → Bool
  | [], [] => true
  | t :: ts, t' :: ts' => Ty.beq t t' && Ty.beqList ts ts'
  | _, _ => false

end

theorem Ty.beqSound : ∀ a : Ty, ∀ b : Ty, Ty.beq a b = true → a = b := by
  intro a
  induction a using Ty.rec
    (motive_2 := fun l => ∀ l' : List Ty, Ty.beqList l l' = true → l = l') with
  | void => intro b; cases b <;> simp [Ty.beq]
  | float => intro b; cases b <;> simp [Ty.beq]
  | double => intro b; cases b <;> simp [Ty.beq]
  | x86fp80 => intro b; cases b <;> simp [Ty.beq]
  | fp128 => intro b; cases b <;> simp [Ty.beq]
  | ppcfp128 => intro b; cases b <;> simp [Ty.beq]
  | label => intro b; cases b <;> simp [Ty.beq]
  | metadata => intro b; cases b <;> simp [Ty.beq]
  | integer n => intro b; cases b <;> simp [Ty.beq]
  | pointer e a ih =>
      intro b; cases b <;> simp only [Ty.beq, Bool.and_eq_true] <;> intro h
      all_goals first
        | (obtain ⟨h1, h2⟩ := h
           exact by rw [ih _ h1, eq_of_beq h2])
        | exact absurd h (by simp [Ty.beq])
  | vector e n ih =>
      intro b; cases b <;> simp only [Ty.beq, Bool.and_eq_true] <;> intro h
      all_goals first
        | (obtain ⟨h1, h2⟩ := h
           exact by rw [ih _ h1, eq_of_beq h2])
        | exact absurd h (by simp [Ty.beq])
  | array e n ih =>
      intro b; cases b <;> simp only [Ty.beq, Bool.and_eq_true] <;> intro h
      all_goals first
        | (obtain ⟨h1, h2⟩ := h
           exact by rw [ih _ h1, eq_of_beq h2])
        | exact absurd h (by simp [Ty.beq])
  | struct_ p fs ih =>
      intro b; cases b <;> simp only [Ty.beq, Bool.and_eq_true] <;> intro h
      all_goals first
        | (obtain ⟨h1, h2⟩ := h
           exact by rw [ih _ h2, eq_of_beq h1])
        | exact absurd h (by simp [Ty.beq])
  | func r ps v ih ihl =>
      intro b; cases b <;> simp only [Ty.beq, Bool.and_eq_true] <;> intro h
      all_goals first
        | (obtain ⟨⟨h1, h2⟩, h3⟩ := h
           exact by rw [ih _ h1, ihl _ h2, eq_of_beq h3])
        | exact absurd h (by simp [Ty.beq])
  | nil =>
      rename_i l' h
      cases l' with
      | nil => rfl
      | cons t' ts' => exact absurd h (by simp [Ty.beqList])
  | cons t ts ih ihl =>
      rename_i l' h
      cases l' with
      | nil => exact absurd h (by simp [Ty.beqList])
      | cons t' ts' =>
          rw [Ty.beqList, Bool.and_eq_true] at h
          rw [ih _ h.1, ihl _ h.2]

theorem Ty.beqRefl : ∀ a : Ty, Ty.beq a a = true := by
  intro a
  induction a using Ty.rec
    (motive_2 := fun l => Ty.beqList l l = true) <;> simp_all [Ty.beq, Ty.beqList]

instance : DecidableEq Ty := fun a b =>
  decidable_of_iff (Ty.beq a b = true) ⟨Ty.beqSound a b, fun h => h ▸ Ty.beqRefl a⟩

/-- `Type::getTypeID`, with the numeric values of the LLVM enum
(`Void=0, Half=1, Float=2, ..., Integer=10, Function=11, Struct=12,
Array=13, Pointer=14, Vector=15`). -/
def Ty.typeID : Ty → Nat
  | .void => 0
  | .float => 2
  | .double => 3
  | .x86fp80 => 4
  | .fp128 => 5
  | .ppcfp128 => 6
  | .label => 7
  | .metadata => 8
  | .integer _ => 10
  | .func _ _ _ => 11
  | .struct_ _ _ => 12
  | .array _ _ => 13
  | .pointer _ _ => 14
  | .vector _ _ => 15

mutual

/-- An injective numbering of (interned) types, standing in for the
`(uint64_t)Type*` address comparison in `cmpType`: distinct interned types
have distinct addresses, and the address order on distinct types is
arbitrary. -/
def Ty.encode : Ty → Nat
  | .void => Nat.pair 0 0
  | .float => Nat.pair 2 0
  | .double => Nat.pair 3 0
  | .x86fp80 => Nat.pair 4 0
  | .fp128 => Nat.pair 5 0
  | .ppcfp128 => Nat.pair 6 0
  | .label => Nat.pair 7 0
  | .metadata => Nat.pair 8 0
  | .integer b => Nat.pair 10 b
  | .func r ps v =>
      Nat.pair 11 (Nat.pair (Ty.encode r) (Nat.pair (Ty.encodeList ps) (cond v 1 0)))
  | .struct_ p fs => Nat.pair 12 (Nat.pair (cond p 1 0) (Ty.encodeList fs))
  | .array e n => Nat.pair 13 (Nat.pair (Ty.encode e) n)
  | .pointer e a => Nat.pair 14 (Nat.pair (Ty.encode e) a)
  | .vector e n => Nat.pair 15 (Nat.pair (Ty.encode e) n)

def Ty.encodeList : List Ty → Nat
  | [] => 0
  | t :: ts => Nat.pair (Ty.encode t) (Ty.encodeList ts) + 1

end

/-- IR constants (`llvm::Constant`), restricted to the shapes the pass
manipulates: integer constants, null values, functions and aliases used as
constants, and `bitcast` constant expressions.  Structural equality models
pointer identity of interned constants (by convention an integer-typed zero
is written `intC ty 0`, never `nullC`). -/
inductive Const : Type where
  | intC (ty : Ty) (val : Int)
  | nullC (ty : Ty)
  | gfun (fid : Nat) (ty : Ty)
  | gali (aid : Nat) (ty : Ty)
  | bc (c : Const) (ty : Ty)
  deriving DecidableEq, Repr

/-- `Value::getType` on constants. -/
def Const.type : Const → Ty
  | .intC ty _ => ty
  | .nullC ty => ty
  | .gfun _ ty => ty
  | .gali _ ty => ty
  | .bc _ ty => ty

/-- `Constant::isNullValue`. -/
def Const.isNullValue : Const → Bool
  | .intC _ v => v == 0
  | .nullC _ => true
  | _ => false

/-- `Constant::getNullValue`. -/
def Const.nullValue (ty : Ty) : Const :=
  match ty with
  | .integer _ => .intC ty 0
  | _ => .nullC ty

/-- `ConstantExpr::getBitCast` with its constant folding: identical type
returns the operand; null values fold to the null of the destination type;
a bitcast of a bitcast folds to a single bitcast; anything else stays an
unevaluated `bitcast` constant expression. -/
def Const.getBitCast : Const → Ty → Const
  | c, ty =>
    if c.type = ty then c
    else if c.isNullValue then Const.nullValue ty
    else
      match c with
      | .bc inner _ => Const.getBitCast inner ty
      | c => .bc c ty

/-- Operands of an instruction, as stored inside a function body:
formal argument index, result of another instruction (virtual register),
a constant, a basic-block label, or an inline-assembly literal. -/
inductive Operand : Type where
  | argO (i : Nat)
  | regO (iid : Nat)
  | constO (c : Const)
  | blockO (bid : Nat)
  | asmO (aid : Nat)
  deriving DecidableEq, Repr

/-- The layout oracle (`llvm::DataLayout`). `ptrSizeBits` is the pointer size
in bits for address space 0 (`getIntPtrType` of an address-space-0 pointer).
`gepOffset` abstracts `GEPOperator::accumulateConstantOffset` (modelled from
the spec: the oracle's "constant-offset accumulation of address
computations"; its implementation lives outside this repository's sources). -/
structure DataLayout where
  ptrSizeBits : Nat
  gepOffset : Ty → List Operand → Option Int

/-- `FunctionComparator::cmpNumbers`, lines 256-260. -/
def cmpNumbers (l r : Nat) : Int :=
  if l < r then -1 else if l > r then 1 else 0

/-- The coercion at the head of `cmpType` (lines 270-273): with a
`DataLayout`, a pointer type in address space 0 is replaced by the
pointer-sized integer type (`DL->getIntPtrType`). -/
def coerce (dl : Option DataLayout) (t : Ty) : Ty :=
  match dl, t with
  | some d, .pointer _ 0 => .integer d.ptrSizeBits
  | _, t => t

mutual

/-- A structural size measure on types, used only to supply `cmpType`'s
recursion fuel. -/
def Ty.tsize : Ty → Nat
  | .pointer e _ => Ty.tsize e + 1
  | .vector e _ => Ty.tsize e + 1
  | .array e _ => Ty.tsize e + 1
  | .struct_ _ fs => Ty.tsizeList fs + 1
  | .func r ps _ => Ty.tsize r + Ty.tsizeList ps + 1
  | _ => 1

def Ty.tsizeList : List Ty → Nat
  | [] => 1
  | t :: ts => Ty.tsize t + Ty.tsizeList ts + 1

end

/-- `FunctionComparator::cmpType`, lines 265-349, as a single worker over
a type pair (`inl`) or the field/parameter list pair of its recursive loops
(`inr`, lines 314-318 and 334-337).  Stages: coerce address-space-0
pointers to the pointer-sized integer when a layout oracle is present;
identical handles are equal; differing kind tags order by tag; integers and
vectors order by handle identity; primitive same-kind types are equal;
pointers order by address space; structs, function types and arrays
recurse.  The source's unreachable `default:` falls through to the
integer/vector case in release builds, mirrored here.  `fuel` only makes
the recursion structural (so that it computes inside the kernel); each
recursive call strictly shrinks the combined size of the arguments, so the
fuel supplied by `cmpType` is never exhausted. -/
def cmpTypeAux (dl : Option DataLayout) :
    Nat → (Ty × Ty) ⊕ (List Ty × List Ty) → Int
  | 0, _ => 0
  | fuel + 1, .inl (tL, tR) =>
    if coerce dl tL = coerce dl tR then 0
    else if cmpNumbers (coerce dl tL).typeID (coerce dl tR).typeID ≠ 0 then
      cmpNumbers (coerce dl tL).typeID (coerce dl tR).typeID
    else
      match coerce dl tL, coerce dl tR with
      | .struct_ pL fL, .struct_ pR fR =>
          if fL.length ≠ fR.length then cmpNumbers fL.length fR.length
          else if pL ≠ pR then cmpNumbers (cond pL 1 0) (cond pR 1 0)
          else cmpTypeAux dl fuel (.inr (fL, fR))
      | .func rL psL vL, .func rR psR vR =>
          if psL.length ≠ psR.length then cmpNumbers psL.length psR.length
          else if vL ≠ vR then cmpNumbers (cond vL 1 0) (cond vR 1 0)
          else
            let r := cmpTypeAux dl fuel (.inl (rL, rR))
            if r ≠ 0 then r else cmpTypeAux dl fuel (.inr (psL, psR))
      | .array eL nL, .array eR nR =>
          if nL ≠ nR then cmpNumbers nL nR
          else cmpTypeAux dl fuel (.inl (eL, eR))
      | .pointer _ aL, .pointer _ aR => cmpNumbers aL aR
      | tyL, tyR =>
          match tyL.typeID with
          | 0 | 2 | 3 | 4 | 5 | 6 | 7 | 8 => 0
          | _ => cmpNumbers tyL.encode tyR.encode
  | fuel + 1, .inr (la, lb) =>
      match la, lb with
      | a :: as, b :: bs =>
          let r := cmpTypeAux dl fuel (.inl (a, b))
          if r ≠ 0 then r else cmpTypeAux dl fuel (.inr (as, bs))
      | _, _ => 0

/-- `FunctionComparator::cmpType` (see `cmpTypeAux`). -/
def cmpType (dl : Option DataLayout) (tL tR : Ty) : Int :=
  cmpTypeAux dl (tL.tsize + tR.tsize + 1) (.inl (tL, tR))

/-- `FunctionComparator::isEquivalentType`, lines 239-241. -/
def isEquivalentType (dl : Option DataLayout) (t1 t2 : Ty) : Bool :=
  cmpType dl t1 t2 == 0

/-- `Type::isFirstClassType`: everything except function and void. -/
def Ty.isFirstClassType (t : Ty) : Bool :=
  match t with
  | .func _ _ _ => false
  | .void => false
  | _ => true

/-- `Type::getPrimitiveSizeInBits`: nonzero only for floating point,
integer and vector types. -/
def Ty.primitiveSizeInBits : Ty → Nat
  | .float => 32
  | .double => 64
  | .x86fp80 => 80
  | .fp128 => 128
  | .ppcfp128 => 128
  | .integer b => b
  | .vector e n => n * Ty.primitiveSizeInBits e
  | _ => 0

/-- `Type::canLosslesslyBitCastTo` (modelled from the spec's "losslessly
bit-cast" relation; the implementation lives in `lib/IR/Type.cpp`, outside
this repository's sources): identical types always; both sides must be
first-class; vectors of equal bit width; pointers of equal address space;
everything else refuses. -/
def canLosslesslyBitCastTo (a b : Ty) : Bool :=
  if a = b then true
  else if ¬a.isFirstClassType ∨ ¬b.isFirstClassType then false
  else
    match a, b with
    | .vector e n, .vector e' n' =>
        (Ty.vector e n).primitiveSizeInBits == (Ty.vector e' n').primitiveSizeInBits
    | .pointer _ as1, .pointer _ as2 => as1 == as2
    | _, _ => false




/-- An IR `Value`, with enough identity to model `Value*` pointer equality:
arguments, instruction results, and basic blocks are identified within their
owning function (`f` is the function id); constants are interned globally;
inline-assembly literals are identified by `aid`. -/
inductive Value : Type where
  | argV (f : Nat) (i : Nat)
  | instV (f : Nat) (iid : Nat)
  | blockV (f : Nat) (bid : Nat)
  | constV (c : Const)
  | asmV (aid : Nat)
  deriving DecidableEq, Repr

/-- Whether this value is the function with id `f` (pointer comparison
`V == F` in `enumerate`). -/
def Value.isFunc (v : Value) (f : Nat) : Bool :=
  match v with
  | .constV (.gfun g _) => g == f
  | _ => false

/-- `isa<InlineAsm>`. -/
def Value.isInlineAsm : Value → Bool
  | .asmV _ => true
  | _ => false

/-- `isa<GlobalValue>`: functions and aliases. -/
def Value.isGlobalValue : Value → Bool
  | .constV (.gfun _ _) => true
  | .constV (.gali _ _) => true
  | _ => false

/-- `isa<Constant>`. -/
def Value.isConstant : Value → Bool
  | .constV _ => true
  | _ => false

/-- The mutable state of one `FunctionComparator` run: the forward map
`id_map` from F1-values to F2-values and the claimed set `seen_values` of
F2-values (lines 250-251).  The C++ `DenseMap` default-constructs a null
entry on lookup; a null entry behaves exactly like an absent key, so the
model only stores real (non-null) entries. -/
structure EnumState where
  idMap : List (Value × Value) := []
  seen : List Value := []
  deriving DecidableEq, Repr

/-- `FunctionComparator::enumerate`, lines 451-489.  `f1`, `f2` are the ids
of the two functions under comparison. -/
def enumerate (dl : Option DataLayout) (f1 f2 : Nat) (st : EnumState)
    (v1 v2 : Value) : Bool × EnumState :=
  if (v1.isFunc f1 ∧ v2.isFunc f2) ∨ (v1.isFunc f2 ∧ v2.isFunc f1) then
    (true, st)
  else
    match v1 with
    | .constV c1 =>
        if v1 = v2 then (true, st)
        else
          match v2 with
          | .constV c2 =>
              if c1.isNullValue ∧ c2.isNullValue ∧
                  isEquivalentType dl c1.type c2.type then (true, st)
              else
                (canLosslesslyBitCastTo c1.type c2.type &&
                  c1 == Const.getBitCast c2 c1.type, st)
          | _ => (false, st)
    | _ =>
        if v1.isInlineAsm ∨ v2.isInlineAsm then (decide (v1 = v2), st)
        else
          match st.idMap.lookup v1 with
          | some w => (decide (w = v2), st)
          | none =>
              if v2 ∈ st.seen then (false, st)
              else (true, { idMap := (v1, v2) :: st.idMap, seen := v2 :: st.seen })

/-- One comparison's sequence of `enumerate` calls, folded from the empty
state (both maps are cleared between comparisons). -/
def enumSequence (dl : Option DataLayout) (f1 f2 : Nat)
    (ps : List (Value × Value)) : EnumState :=
  ps.foldl (fun st p => (enumerate dl f1 f2 st p.1 p.2).2) {}

/-- The C3 invariant on the comparator state: the forward map `id_map` is
functional and injective — no two F1-values map to the same F2-value — and
`seen_values` is exactly its image. -/
def EnumInv (st : EnumState) : Prop :=
  (∀ a b b', (a, b) ∈ st.idMap → (a, b') ∈ st.idMap → b = b') ∧
  (∀ a a' b, (a, b) ∈ st.idMap → (a', b) ∈ st.idMap → a = a') ∧
  (∀ b, b ∈ st.seen ↔ ∃ a, (a, b) ∈ st.idMap)

/-- Instruction opcodes used by the modelled IR fragment, with their LLVM
numeric tags (`Instruction.def`). -/
inductive Opcode : Type where
  | ret | br | unreachable_ | add | load | store | gep
  | inttoptr | ptrtoint | bitcast | icmp | call | invoke
  | insertvalue | extractvalue | fence | cmpxchg | rmw
  deriving DecidableEq, Repr

def Opcode.num : Opcode → Nat
  | .ret => 1
  | .br => 2
  | .invoke => 5
  | .unreachable_ => 7
  | .add => 8
  | .load => 27
  | .store => 28
  | .cmpxchg => 29
  | .rmw => 30
  | .gep => 32
  | .inttoptr => 43
  | .ptrtoint => 42
  | .bitcast => 44
  | .icmp => 46
  | .call => 49
  | .fence => 55
  | .insertvalue => 57
  | .extractvalue => 58

/-- An instruction: identity (`iid`, the virtual register), opcode, result
type, operand list, the uniformly-compared "subclass optional data"
(overflow/exactness/fast-math bits plus the tail-call bit), and the
opcode-specific special state compared by `isEquivalentOperation`.
For calls the callee is the last operand (LLVM operand layout). -/
structure Instr where
  iid : Nat
  op : Opcode
  ty : Ty
  operands : List Operand
  subclass : Nat := 0
  tailCall : Bool := false
  vol : Bool := false
  alignment : Nat := 0
  ordering : Nat := 0
  ordering2 : Nat := 0
  syncScope : Nat := 0
  pred : Nat := 0
  callCC : Nat := 0
  callAttrs : Nat := 0
  rmwOp : Nat := 0
  indices : List Nat := []
  deriving DecidableEq, Repr

/-- A basic block: identity plus its ordered instruction list (nonempty in
well-formed IR, ending in a terminator). -/
structure Block where
  bid : Nat
  instrs : List Instr
  deriving DecidableEq, Repr

/-- Linkage classes relevant to the pass. -/
inductive Linkage : Type where
  | external_ | internal_ | priv | weak | linkonce | availableExternally
  deriving DecidableEq, Repr

/-- `GlobalValue::mayBeOverridden`: weak-any and linkonce-any definitions. -/
def Linkage.mayBeOverridden : Linkage → Bool
  | .weak => true
  | .linkonce => true
  | _ => false

def Linkage.isLocal : Linkage → Bool
  | .internal_ => true
  | .priv => true
  | _ => false

/-- A function definition. -/
structure Func where
  fid : Nat
  name : Option Nat
  linkage : Linkage
  attrs : Nat
  cc : Nat
  gc : Option Nat
  section_ : Option Nat
  unnamedAddr : Bool
  visibility : Nat
  alignment : Nat
  retTy : Ty
  params : List Ty
  varArg : Bool
  blocks : List Block
  deriving DecidableEq, Repr

def Func.funcType (f : Func) : Ty := .func f.retTy f.params f.varArg

/-- `Function::getType()`: pointer to the function type, address space 0. -/
def Func.ptrTy (f : Func) : Ty := .pointer f.funcType 0

def Func.mayBeOverridden (f : Func) : Bool := f.linkage.mayBeOverridden

def Func.hasLocalLinkage (f : Func) : Bool := f.linkage.isLocal

def Func.isDeclaration (f : Func) : Bool := f.blocks.isEmpty

/-- The function as a `Value` (a `Function` is a `Constant`). -/
def Func.asValue (f : Func) : Value := .constV (.gfun f.fid f.ptrTy)

def Func.allInstrs (f : Func) : List Instr := (f.blocks.map (·.instrs)).join

def Func.findInstr (f : Func) (iid : Nat) : Option Instr :=
  f.allInstrs.find? (·.iid == iid)

def Func.findBlock (f : Func) (bid : Nat) : Option Block :=
  f.blocks.find? (·.bid == bid)

/-- `Value::getType` of an operand, resolved inside its owning function. -/
def Func.operandTy (f : Func) (o : Operand) : Ty :=
  match o with
  | .argO i => f.params.getD i .void
  | .regO iid =>
      match f.findInstr iid with
      | some i => i.ty
      | none => .void
  | .constO c => c.type
  | .blockO _ => .label
  | .asmO _ => .pointer (.func .void [] false) 0

/-- `Value::getValueID`: the subclass tag (instructions carry their opcode). -/
def Func.operandValueID (f : Func) (o : Operand) : Nat :=
  match o with
  | .argO _ => 0
  | .blockO _ => 1
  | .constO (.gfun _ _) => 2
  | .constO (.gali _ _) => 3
  | .constO (.bc _ _) => 7
  | .constO (.intC _ _) => 10
  | .constO (.nullC _) => 11
  | .asmO _ => 15
  | .regO iid =>
      match f.findInstr iid with
      | some i => 60 + i.op.num
      | none => 59

/-- View of an operand as a `Value` of the function with id `fid`. -/
def Operand.toValue (fid : Nat) : Operand → Value
  | .argO i => .argV fid i
  | .regO iid => .instV fid iid
  | .constO c => .constV c
  | .blockO b => .blockV fid b
  | .asmO a => .asmV a

/-- `hasSameSubclassOptionalData` (nuw/nsw/exact/fast-math and the
tail-call bit). -/
def hasSameSubclassOptionalData (i1 i2 : Instr) : Bool :=
  i1.subclass == i2.subclass && i1.tailCall == i2.tailCall

/-- `FunctionComparator::isEquivalentOperation`, lines 354-413. -/
def isEquivalentOperation (dl : Option DataLayout) (f1 f2 : Func)
    (i1 i2 : Instr) : Bool :=
  if i1.op ≠ i2.op ∨ i1.operands.length ≠ i2.operands.length ∨
      ¬isEquivalentType dl i1.ty i2.ty ∨ ¬hasSameSubclassOptionalData i1 i2 then
    false
  else if ¬((List.zip i1.operands i2.operands).all fun p =>
      isEquivalentType dl (f1.operandTy p.1) (f2.operandTy p.2)) then
    false
  else
    match i1.op with
    | .load => i1.vol == i2.vol && i1.alignment == i2.alignment &&
        i1.ordering == i2.ordering && i1.syncScope == i2.syncScope
    | .store => i1.vol == i2.vol && i1.alignment == i2.alignment &&
        i1.ordering == i2.ordering && i1.syncScope == i2.syncScope
    | .icmp => i1.pred == i2.pred
    | .call => i1.callCC == i2.callCC && i1.callAttrs == i2.callAttrs
    | .invoke => i1.callCC == i2.callCC && i1.callAttrs == i2.callAttrs
    | .insertvalue => i1.indices == i2.indices
    | .extractvalue => i1.indices == i2.indices
    | .fence => i1.ordering == i2.ordering && i1.syncScope == i2.syncScope
    | .cmpxchg => i1.vol == i2.vol && i1.ordering == i2.ordering &&
        i1.ordering2 == i2.ordering2 && i1.syncScope == i2.syncScope
    | .rmw => i1.rmwOp == i2.rmwOp && i1.vol == i2.vol &&
        i1.ordering == i2.ordering && i1.syncScope == i2.syncScope
    | _ => true

/-- The address space of a GEP pointer operand
(`GEPOperator::getPointerAddressSpace`). -/
def Func.gepAddrSpace (f : Func) (g : Instr) : Nat :=
  match f.operandTy (g.operands.headD (.constO (.intC .void 0))) with
  | .pointer _ a => a
  | _ => 0

/-- The operand loop shared by GEP comparison and instruction comparison:
enumerate each operand pair in order (first failure wins). -/
def enumerateOperands (dl : Option DataLayout) (f1 f2 : Nat) :
    EnumState → List Operand → List Operand → Bool × EnumState
  | st, o1 :: t1, o2 :: t2 =>
      let r := enumerate dl f1 f2 st (o1.toValue f1) (o2.toValue f2)
      if r.1 then enumerateOperands dl f1 f2 r.2 t1 t2 else (false, r.2)
  | st, [], [] => (true, st)
  | st, _, _ => (false, st)

/-- `FunctionComparator::isEquivalentGEP`, lines 416-446: same pointer
address space; with a layout oracle, equal accumulated constant byte
offsets suffice; otherwise identical base-pointer type, identical operand
count, and all operand pairs enumerate. -/
def isEquivalentGEP (dl : Option DataLayout) (f1 f2 : Func) (st : EnumState)
    (g1 g2 : Instr) : Bool × EnumState :=
  if f1.gepAddrSpace g1 ≠ f2.gepAddrSpace g2 then (false, st)
  else
    let folded :=
      match dl with
      | some d =>
          match d.gepOffset (f1.operandTy (g1.operands.headD (.constO (.intC .void 0)))) g1.operands,
              d.gepOffset (f2.operandTy (g2.operands.headD (.constO (.intC .void 0)))) g2.operands with
          | some off1, some off2 => some (off1 == off2)
          | _, _ => none
      | none => none
    match folded with
    | some b => (b, st)
    | none =>
        if f1.operandTy (g1.operands.headD (.constO (.intC .void 0))) ≠
            f2.operandTy (g2.operands.headD (.constO (.intC .void 0))) then (false, st)
        else if g1.operands.length ≠ g2.operands.length then (false, st)
        else enumerateOperands dl f1.fid f2.fid st g1.operands g2.operands

/-- The per-operand body of the non-GEP branch of the basic-block loop
(lines 515-525): enumerate the pair, then require equal value IDs and
equivalent types. -/
def cmpOperandPairs (dl : Option DataLayout) (f1 f2 : Func) :
    EnumState → List Operand → List Operand → Bool × EnumState
  | st, o1 :: t1, o2 :: t2 =>
      let r := enumerate dl f1.fid f2.fid st (o1.toValue f1.fid) (o2.toValue f2.fid)
      if ¬r.1 then (false, r.2)
      else if f1.operandValueID o1 ≠ f2.operandValueID o2 ∨
          ¬isEquivalentType dl (f1.operandTy o1) (f2.operandTy o2) then (false, r.2)
      else cmpOperandPairs dl f1 f2 r.2 t1 t2
  | st, [], [] => (true, st)
  | st, _, _ => (false, st)

/-- `FunctionComparator::compare(BasicBlock*, BasicBlock*)`, lines 492-532:
lock-step over the two instruction streams; both streams must exhaust
simultaneously. -/
def fcCmpBB (dl : Option DataLayout) (f1 f2 : Func) :
    EnumState → List Instr → List Instr → Bool × EnumState
  | st, i1 :: t1, i2 :: t2 =>
      let r := enumerate dl f1.fid f2.fid st
        (.instV f1.fid i1.iid) (.instV f2.fid i2.iid)
      if ¬r.1 then (false, r.2)
      else if i1.op = .gep then
        if i2.op ≠ .gep then (false, r.2)
        else
          let p1 := i1.operands.headD (.constO (.intC .void 0))
          let p2 := i2.operands.headD (.constO (.intC .void 0))
          let rp := enumerate dl f1.fid f2.fid r.2 (p1.toValue f1.fid) (p2.toValue f2.fid)
          if ¬rp.1 then (false, rp.2)
          else
            let rg := isEquivalentGEP dl f1 f2 rp.2 i1 i2
            if ¬rg.1 then (false, rg.2)
            else fcCmpBB dl f1 f2 rg.2 t1 t2
      else
        if ¬isEquivalentOperation dl f1 f2 i1 i2 then (false, r.2)
        else
          let r2 := cmpOperandPairs dl f1 f2 r.2 i1.operands i2.operands
          if ¬r2.1 then (false, r2.2)
          else fcCmpBB dl f1 f2 r2.2 t1 t2
  | st, [], [] => (true, st)
  | st, _, _ => (false, st)
/-- The last instruction of a block (`BasicBlock::getTerminator`). -/
def Block.terminator (b : Block) : Instr :=
  b.instrs.getLastD { iid := 0, op := .unreachable_, ty := .void, operands := [] }

/-- `TerminatorInst::getSuccessor(i)` in order: branch targets among the
operands. -/
def Instr.successors (i : Instr) : List Nat :=
  match i.op with
  | .br => i.operands.filterMap fun o =>
      match o with
      | .blockO b => some b
      | _ => none
  | _ => []

/-- One step of the paired CFG walk of `FunctionComparator::compare`
(lines 580-605): pop a block pair, enumerate it, compare it, then push the
pairs of successors whose F1 side is not yet visited (marking them visited
at push time, as `VisitedBBs.insert` does).  The stacks always have equal
length (pushed pairwise).  `fuel` bounds the loop; each F1 block is pushed
at most once, so `f1.blocks.length + 1` steps always suffice. -/
def fcWalk (dl : Option DataLayout) (f1 f2 : Func) :
    Nat → List Nat → List Nat → List Nat → EnumState → Bool
  | 0, _, _, _, _ => false
  | _ + 1, _, [], _, _ => true
  | fuel + 1, visited, b1 :: s1, stk2, st =>
      match stk2 with
      | [] => true
      | b2 :: s2 =>
          let r := enumerate dl f1.fid f2.fid st (.blockV f1.fid b1) (.blockV f2.fid b2)
          if ¬r.1 then false
          else
            match f1.findBlock b1, f2.findBlock b2 with
            | some bb1, some bb2 =>
                let rb := fcCmpBB dl f1 f2 r.2 bb1.instrs bb2.instrs
                if ¬rb.1 then false
                else
                  let pairs := (List.zip bb1.terminator.successors
                    bb2.terminator.successors)
                  let step := pairs.foldl (fun acc p =>
                    if p.1 ∈ acc.1 then acc
                    else (p.1 :: acc.1, p.1 :: acc.2.1, p.2 :: acc.2.2))
                    (visited, s1, s2)
                  fcWalk dl f1 f2 fuel step.1 step.2.1 step.2.2 rb.2
            | _, _ => false

/-- `FunctionComparator::compare()`, lines 535-607: header checks
(attributes, GC, section, variadicity, calling convention, signature under
`cmpType`), argument enumeration in declaration order, then the paired
CFG-ordered walk from both entry blocks.  Argument enumeration cannot fail
from the empty state (`llvm_unreachable("Arguments repeat!")` in the
source), so only its state is threaded. -/
def fcCompare (dl : Option DataLayout) (f1 f2 : Func) : Bool :=
  if f1.attrs ≠ f2.attrs then false
  else if f1.gc.isSome ≠ f2.gc.isSome then false
  else if f1.gc.isSome ∧ f1.gc ≠ f2.gc then false
  else if f1.section_.isSome ≠ f2.section_.isSome then false
  else if f1.section_.isSome ∧ f1.section_ ≠ f2.section_ then false
  else if f1.varArg ≠ f2.varArg then false
  else if f1.cc ≠ f2.cc then false
  else if ¬isEquivalentType dl f1.funcType f2.funcType then false
  else
    let st := (List.range f1.params.length).foldl (fun st i =>
      (enumerate dl f1.fid f2.fid st (.argV f1.fid i) (.argV f2.fid i)).2)
      {}
    match f1.blocks, f2.blocks with
    | bb1 :: _, bb2 :: _ =>
        fcWalk dl f1 f2 (f1.blocks.length + 1) [bb1.bid] [bb1.bid] [bb2.bid] st
    | _, _ => false

/-- `getTypeIDForHash`, lines 79-83: pointer types hash as the integer
kind tag. -/
def getTypeIDForHash (t : Ty) : Nat :=
  match t with
  | .pointer _ _ => 10
  | _ => t.typeID

/-- `profileFunction`, lines 88-100, as the sequence of values folded into
the `FoldingSetNodeID`: basic-block count, calling convention, has-GC flag,
variadic flag, and the hash kind tags of the return and parameter types.
`ComputeHash` is a pure function of this sequence, so equal sequences give
equal hashes (and the hash is the only use of the sequence). -/
def profileFunction (f : Func) : List Nat :=
  [f.blocks.length, f.cc, cond f.gc.isSome 1 0, cond f.varArg 1 0,
    getTypeIDForHash f.retTy] ++ f.params.map getTypeIDForHash
/-- A global alias (`llvm::GlobalAlias`): name, linkage, visibility, its
pointer type and the aliasee constant. -/
structure GlobalAlias where
  aid : Nat
  name : Option Nat
  linkage : Linkage
  visibility : Nat
  ty : Ty
  aliasee : Const
  deriving DecidableEq, Repr

/-- A module: its function list and alias list. -/
structure Module where
  funcs : List Func
  aliases : List GlobalAlias
  deriving DecidableEq, Repr

/-- The mutable state of one `MergeFunctions` run: the module contents, the
`FnSet` (as the ids of its member functions, in insertion order), the
`Deferred` work queue (function ids; a `WeakVH` that died is detected at
drain time by the id no longer resolving), the four statistics counters,
the accumulated status of the source's `assert`s, and a fresh-id counter
for newly created functions and aliases. -/
structure PassState where
  funcs : List Func
  aliases : List GlobalAlias
  fnSet : List Nat := []
  deferred : List Nat := []
  nMerged : Nat := 0
  nThunks : Nat := 0
  nAliases : Nat := 0
  nDoubleWeak : Nat := 0
  assertOk : Bool := true
  nextId : Nat
  deriving DecidableEq, Repr

def PassState.findFunc (st : PassState) (fid : Nat) : Option Func :=
  st.funcs.find? (·.fid == fid)

def PassState.updateFunc (st : PassState) (fid : Nat) (φ : Func → Func) :
    PassState :=
  { st with funcs := st.funcs.map fun f => if f.fid = fid then φ f else f }

/-- `eraseFromParent` on a function. -/
def PassState.eraseFunc (st : PassState) (fid : Nat) : PassState :=
  { st with funcs := st.funcs.filter (·.fid ≠ fid) }

/-- Substitution underlying `replaceAllUsesWith` on a function: every use of
the function with id `g` is replaced by the constant `r`; constant
expressions containing the use are re-built through `getBitCast` (LLVM
re-uniques and re-folds them via `handleOperandChange`). -/
def Const.substG : Const → Nat → Const → Const
  | .gfun f ty, g, r => if f = g then r else .gfun f ty
  | .bc c ty, g, r => Const.getBitCast (Const.substG c g r) ty
  | c, _, _ => c

def Operand.substG : Operand → Nat → Const → Operand
  | .constO c, g, r => .constO (c.substG g r)
  | o, _, _ => o

/-- The per-function part of `replaceAllUsesWith`: substitute in every
instruction operand. -/
def Func.substBlocks (f : Func) (g : Nat) (r : Const) : Func :=
  { f with blocks := f.blocks.map fun b =>
    { b with instrs := b.instrs.map fun i =>
      { i with operands := i.operands.map (·.substG g r) } } }

/-- `replaceAllUsesWith` of the function with id `g` by the constant `r`:
rewrites every instruction operand and every alias aliasee. -/
def PassState.rauwFunc (st : PassState) (g : Nat) (r : Const) : PassState :=
  { st with
    funcs := st.funcs.map (Func.substBlocks · g r),
    aliases := st.aliases.map fun a => { a with aliasee := a.aliasee.substG g r } }

/-- A constant expression together with its transitive constant operands. -/
def Const.subConsts : Const → List Const
  | .bc c ty => .bc c ty :: c.subConsts
  | c => [c]

/-- All constants occurring in the module (instruction operands and alias
aliasees, with their subexpressions). -/
def PassState.allConsts (st : PassState) : List Const :=
  ((st.funcs.flatMap fun f => f.allInstrs.flatMap fun i =>
      i.operands.filterMap fun o =>
        match o with
        | .constO c => some c
        | _ => none) ++ st.aliases.map (·.aliasee)).flatMap Const.subConsts
    |>.dedup

/-- The direct operand values of a constant (`User` operands): only
`bitcast` expressions have one. -/
def Const.directOperands : Const → List Value
  | .bc c _ => [.constV c]
  | _ => []

/-- `V->users()`: instructions whose operand list mentions `v`, constant
expressions having `v` as a direct operand, and aliases whose aliasee is
`v`.  (Use-list order in LLVM is unspecified; the model fixes module
order.) -/
def PassState.usersOf (st : PassState) (v : Value) : List Value :=
  (st.funcs.flatMap fun f => f.allInstrs.filterMap fun i =>
      if i.operands.any fun o => o.toValue f.fid = v then
        some (.instV f.fid i.iid)
      else none)
    ++ (st.allConsts.filterMap fun c =>
      if v ∈ c.directOperands then some (.constV c) else none)
    ++ (st.aliases.filterMap fun a =>
      if (Value.constV a.aliasee) = v then some (.constV (.gali a.aid a.ty))
      else none)

/-- `MergeFunctions::remove`, lines 934-946: erase the function from
`FnSet` by identity (the `LookupOnly` sentinel) and, if it was present,
queue it on `Deferred`. -/
def removeFn (st : PassState) (fid : Nat) : PassState :=
  if fid ∈ st.fnSet then
    { st with fnSet := st.fnSet.filter (· ≠ fid),
              deferred := st.deferred ++ [fid] }
  else st

/-- The owner function id of an instruction value. -/
def Value.ownerFid : Value → Option Nat
  | .instV f _ => some f
  | _ => none

/-- The scan over one popped value's user list (the inner `for` of
`removeUsers`): an instruction user causes `remove` of its parent function,
a `GlobalValue` user is skipped, and for any other constant user `C` the
*users of `C`* (read in the loop-entry state `stm`) are pushed, in order,
onto the worklist. -/
def removeUsersScan (stm : PassState) : PassState → List Value → PassState × List Value
  | st, [] => (st, [])
  | st, u :: rest =>
      match u with
      | .instV f _ => removeUsersScan stm (removeFn st f) rest
      | u =>
          if u.isGlobalValue then removeUsersScan stm st rest
          else
            match u with
            | .constV c =>
                let r := removeUsersScan stm st rest
                (r.1, stm.usersOf (.constV c) ++ r.2)
            | _ => removeUsersScan stm st rest

/-- The worklist loop of `MergeFunctions::removeUsers`, lines 950-968:
pop a value (LIFO) and scan its users via `removeUsersScan`. -/
def removeUsersLoop : PassState → Nat → List Value → PassState
  | st, 0, _ => st
  | st, _, [] => st
  | st, fuel + 1, v :: rest =>
      let step := removeUsersScan st st (st.usersOf v)
      removeUsersLoop step.1 fuel (step.2.reverse ++ rest)

/-- Fuel that always suffices for `removeUsersLoop` on acyclic constant
graphs: generous in the module size. -/
def PassState.removeUsersFuel (st : PassState) : Nat :=
  1000 + 10 * ((st.funcs.map fun f => f.allInstrs.length).sum
    + st.aliases.length + st.allConsts.length)

/-- `MergeFunctions::removeUsers`, lines 950-968. -/
def removeUsers (st : PassState) (v : Value) : PassState :=
  removeUsersLoop st st.removeUsersFuel [v]

/-- Whether `i` is a call whose callee operand (the last operand) is the
function with id `fid` (`CallSite::isCallee` on that use). -/
def Instr.calleeIs (i : Instr) (fid : Nat) : Bool :=
  i.op = .call &&
    match i.operands.getLast? with
    | some (.constO (.gfun g _)) => g == fid
    | _ => false

def Instr.setCallee (i : Instr) (c : Const) : Instr :=
  { i with operands := i.operands.dropLast ++ [.constO c] }

/-- The per-function part of `replaceDirectCallers`: every direct call of
`old` has its callee operand replaced by `c`. -/
def Func.retargetCalls (f : Func) (old : Nat) (c : Const) : Func :=
  { f with blocks := f.blocks.map fun b =>
    { b with instrs := b.instrs.map fun i =>
      if i.calleeIs old then i.setCallee c else i } }

/-- `MergeFunctions::replaceDirectCallers`, lines 758-769: every direct
call of `old` is retargeted to `bitcast(new)`; the parent function of each
rewritten call is `remove`d first. -/
def replaceDirectCallers (st : PassState) (old new_ : Nat) : PassState :=
  match st.findFunc old, st.findFunc new_ with
  | some oldF, some newF =>
      let bitcastNew := Const.getBitCast (.gfun new_ newF.ptrTy) oldF.ptrTy
      let callers := st.funcs.filterMap fun f =>
        if f.allInstrs.any (·.calleeIs old) then some f.fid else none
      let st := callers.foldl removeFn st
      { st with funcs := st.funcs.map (Func.retargetCalls · old bitcastNew) }
  | _, _ => st

/-- `Function::copyAttributesFrom` (alignment, section, visibility,
unnamed-addr from `GlobalValue`; calling convention, attributes and GC from
`Function`). -/
def Func.copyAttributesFrom (dst src : Func) : Func :=
  { dst with alignment := src.alignment, section_ := src.section_,
             visibility := src.visibility, unnamedAddr := src.unnamedAddr,
             cc := src.cc, attrs := src.attrs, gc := src.gc }

/-- `MergeFunctions::writeAlias`, lines 846-859: create
`GlobalAlias(G->getType(), G->getLinkage(), "", bitcast(F), parent)`, raise
F's alignment to the max with G's, move G's name and visibility onto the
alias, invalidate G's users, replace G's uses by the alias and erase G. -/
def writeAlias (st : PassState) (fFid gFid : Nat) : PassState :=
  match st.findFunc fFid, st.findFunc gFid with
  | some F, some G =>
      let bitcastF := Const.getBitCast (.gfun fFid F.ptrTy) G.ptrTy
      let aid := st.nextId
      let ga : GlobalAlias :=
        { aid := aid, name := G.name, linkage := G.linkage,
          visibility := G.visibility, ty := G.ptrTy, aliasee := bitcastF }
      let st := { st with aliases := st.aliases ++ [ga], nextId := st.nextId + 1 }
      let st := st.updateFunc fFid fun f =>
        { f with alignment := max f.alignment G.alignment }
      let st := st.updateFunc gFid fun g => { g with name := none }
      let st := removeUsers st (.constV (.gfun gFid G.ptrTy))
      let st := st.rauwFunc gFid (.gali aid G.ptrTy)
      let st := st.eraseFunc gFid
      { st with nAliases := st.nAliases + 1 }
  | _, _ => st

/-- `createCast`, lines 787-795, combined with the `IRBuilder` cast
builders it calls (which return the value unchanged when the types already
match): integer-to-pointer and pointer-to-integer use the dedicated
conversions, everything else a bitcast.  Returns the operand to use, the
emitted cast instruction (if any) and the next fresh instruction id. -/
def createCast (nextIid : Nat) (src : Operand) (srcTy destTy : Ty) :
    Operand × List Instr × Nat :=
  if srcTy = destTy then (src, [], nextIid)
  else
    let op : Opcode :=
      match srcTy, destTy with
      | .integer _, .pointer _ _ => .inttoptr
      | .pointer _ _, .integer _ => .ptrtoint
      | _, _ => .bitcast
    (.regO nextIid, [{ iid := nextIid, op := op, ty := destTy, operands := [src] }],
      nextIid + 1)

/-- The argument-cast loop of `writeThunk` (lines 817-824): cast each of the
thunk's arguments to F's corresponding parameter type. -/
def buildArgCasts (fparams : List Ty) : Nat → Nat → List Ty →
    List Operand × List Instr × Nat
  | _, nid, [] => ([], [], nid)
  | i, nid, pty :: rest =>
      let c := createCast nid (.argO i) pty (fparams.getD i .void)
      let r := buildArgCasts fparams (i + 1) c.2.2 rest
      (c.1 :: r.1, c.2.1 ++ r.2.1, r.2.2)

/-- The body of the thunk `writeThunk` creates (lines 817-835): the
argument casts, the tail call to F with F's calling convention, the
optional cast of the result back to G's return type, and the return. -/
def thunkBody (fFid : Nat) (F G : Func) : List Instr :=
  let ac := buildArgCasts F.params 0 1 G.params
  let callI : Instr :=
    { iid := ac.2.2, op := .call, ty := F.retTy,
      operands := ac.1 ++ [.constO (.gfun fFid F.ptrTy)],
      tailCall := true, callCC := F.cc }
  let retPart : List Operand × List Instr × Nat :=
    if G.retTy = .void then ([], [], ac.2.2 + 1)
    else
      let c := createCast (ac.2.2 + 1) (.regO ac.2.2) F.retTy G.retTy
      ([c.1], c.2.1, c.2.2)
  let retI : Instr :=
    { iid := retPart.2.2, op := .ret, ty := .void,
      operands := retPart.1 }
  ac.2.1 ++ [callI] ++ retPart.2.1 ++ [retI]

/-- The thunk-construction tail of `writeThunk` (lines 811-841), applied
once G was found overridable or still in use: create the new function,
give it G's attributes and name, replace G's remaining uses by it and
erase G. -/
def writeThunkBuild (st : PassState) (fFid gFid : Nat) (F G : Func) :
    PassState :=
  let newId := st.nextId
  let newG : Func :=
    { fid := newId, name := none, linkage := G.linkage, attrs := 0,
      cc := 0, gc := none, section_ := none, unnamedAddr := false,
      visibility := 0, alignment := 0, retTy := G.retTy,
      params := G.params, varArg := G.varArg,
      blocks := [{ bid := 0, instrs := thunkBody fFid F G }] }
  let st := { st with funcs := st.funcs ++ [newG],
                      nextId := st.nextId + 1 }
  let st := st.updateFunc newId fun n => n.copyAttributesFrom G
  let st := st.updateFunc newId fun n => { n with name := G.name }
  let st := st.updateFunc gFid fun g => { g with name := none }
  let st := removeUsers st (.constV (.gfun gFid G.ptrTy))
  let st := st.rauwFunc gFid (.gfun newId G.ptrTy)
  let st := st.eraseFunc gFid
  { st with nThunks := st.nThunks + 1 }

/-- `MergeFunctions::writeThunk`, lines 799-843.  If G is not overridable
its direct callers are first redirected to F; if G then has local linkage
and no remaining uses it is simply erased.  Otherwise a fresh function with
G's signature and linkage is created whose single block casts each argument
to F's parameter type, tail-calls F with F's calling convention and returns
void or the cast-back result; it takes G's attributes and name, G's
remaining uses are replaced by it, and G is erased. -/
def writeThunk (st : PassState) (fFid gFid : Nat) : PassState :=
  match st.findFunc gFid with
  | none => st
  | some G0 =>
      let st := if ¬G0.mayBeOverridden then replaceDirectCallers st gFid fFid
                else st
      match st.findFunc gFid, st.findFunc fFid with
      | some G, some F =>
          if G.hasLocalLinkage ∧ (st.usersOf (.constV (.gfun gFid G.ptrTy))).isEmpty then
            st.eraseFunc gFid
          else writeThunkBuild st fFid gFid F G
      | _, _ => st

/-- `MergeFunctions::writeThunkOrAlias`, lines 772-782. -/
def writeThunkOrAlias (hasAliases : Bool) (st : PassState) (fFid gFid : Nat) :
    PassState :=
  match st.findFunc gFid with
  | some G =>
      if hasAliases ∧ G.unnamedAddr ∧
          (G.linkage = .external_ ∨ G.hasLocalLinkage ∨ G.linkage = .weak) then
        writeAlias st fFid gFid
      else writeThunk st fFid gFid
  | none => st

/-- `MergeFunctions::mergeTwoFunctions`, lines 862-894.  When F is
overridable (so is G, per the source's assert): with alias support, create
a private clone target H taking F's name, redirect F's uses to H, alias
both G and H to F, set F's alignment to the maximum of G's and H's and make
F private; without alias support, just redirect G's direct callers to F.
When F is not overridable, thunk-or-alias G to F. -/
def mergeTwoFunctions (hasAliases : Bool) (st : PassState) (fFid gFid : Nat) :
    PassState :=
  match st.findFunc fFid, st.findFunc gFid with
  | some F, some G =>
      let st :=
        if F.mayBeOverridden then
          let st := { st with assertOk := st.assertOk && G.mayBeOverridden }
          let st :=
            if hasAliases then
              let hid := st.nextId
              let h : Func :=
                { fid := hid, name := none, linkage := F.linkage, attrs := 0,
                  cc := 0, gc := none, section_ := none, unnamedAddr := false,
                  visibility := 0, alignment := 0, retTy := F.retTy,
                  params := F.params, varArg := F.varArg, blocks := [] }
              let st := { st with funcs := st.funcs ++ [h],
                                  nextId := st.nextId + 1 }
              let st := st.updateFunc hid fun n => n.copyAttributesFrom F
              let st := st.updateFunc hid fun n => { n with name := F.name }
              let st := st.updateFunc fFid fun f => { f with name := none }
              let st := removeUsers st (.constV (.gfun fFid F.ptrTy))
              let st := st.rauwFunc fFid (.gfun hid F.ptrTy)
              let maxAlignment :=
                max G.alignment (((st.findFunc hid).map (·.alignment)).getD 0)
              let st := writeAlias st fFid gFid
              let st := writeAlias st fFid hid
              let st := st.updateFunc fFid fun f =>
                { f with alignment := maxAlignment }
              st.updateFunc fFid fun f => { f with linkage := .priv }
            else replaceDirectCallers st gFid fFid
          { st with nDoubleWeak := st.nDoubleWeak + 1 }
        else writeThunkOrAlias hasAliases st fFid gFid
      { st with nMerged := st.nMerged + 1 }
  | _, _ => st

/-- The lookup `FnSet.insert` performs: the first member of the set that is
in the newcomer's fingerprint bucket and that the `FunctionComparator`
reports equal to it (`DenseMapInfo<ComparableFunction>::isEqual`,
lines 737-755). -/
def findCollision (dl : Option DataLayout) (st : PassState) (newF : Func) :
    Option Nat :=
  st.fnSet.find? fun oldFid =>
    match st.findFunc oldFid with
    | some oldF =>
        profileFunction oldF == profileFunction newF &&
          fcCompare dl newF oldF
    | none => false

/-- `MergeFunctions::insert`, lines 898-930: `FnSet.insert` (a collision is
an equal member, equality being fingerprint-bucket identity plus
`FunctionComparator`); a unique newcomer is added to the set and `false`
returned; on a collision a single-block newcomer of at most two
instructions is left alone (`false`, nothing changed); otherwise the
source asserts that a weak incumbent never meets a strong newcomer, and
the newcomer is merged away into the incumbent. -/
def insertFn (dl : Option DataLayout) (hasAliases : Bool) (st : PassState)
    (fid : Nat) : Bool × PassState :=
  match st.findFunc fid with
  | none => (false, st)
  | some newF =>
      match findCollision dl st newF with
      | none => (false, { st with fnSet := st.fnSet ++ [fid] })
      | some oldFid =>
          if newF.blocks.length = 1 ∧
              (newF.blocks.headD ⟨0, []⟩).instrs.length ≤ 2 then
            (false, st)
          else
            let ok :=
              match st.findFunc oldFid with
              | some oldF => !oldF.mayBeOverridden || newF.mayBeOverridden
              | none => true
            let st := { st with assertOk := st.assertOk && ok }
            (true, mergeTwoFunctions hasAliases st oldFid fid)

/-- One worklist sweep of `runOnModule` (lines 704-728): the strong pass
inserts only live (`WeakVH` still resolving), defined,
non-available-externally, non-overridable functions; the weak pass the
overridable ones.  `Changed` is the disjunction of the insert results. -/
def passSweep (dl : Option DataLayout) (hasAliases : Bool) (strong : Bool) :
    PassState → List Nat → Bool × PassState
  | st, [] => (false, st)
  | st, fid :: rest =>
      match st.findFunc fid with
      | none => passSweep dl hasAliases strong st rest
      | some f =>
          if ¬f.isDeclaration ∧ ¬(f.linkage = .availableExternally) ∧
              (if strong then ¬f.mayBeOverridden else f.mayBeOverridden = true) then
            let r := insertFn dl hasAliases st fid
            let rest' := passSweep dl hasAliases strong r.2 rest
            (r.1 || rest'.1, rest'.2)
          else passSweep dl hasAliases strong st rest

/-- The do-while driver loop of `runOnModule` (lines 695-730): drain
`Deferred` into a worklist, run the strong then the weak sweep, repeat
until `Deferred` stays empty.  Returns (changed, state, completed); `fuel`
bounds the number of iterations and `completed` records that the loop
really reached its exit condition. -/
def runLoop (dl : Option DataLayout) (hasAliases : Bool) :
    Nat → PassState → Bool → Bool × PassState × Bool
  | 0, st, changed => (changed, st, st.deferred.isEmpty)
  | fuel + 1, st, changed =>
      let worklist := st.deferred
      let st := { st with deferred := [] }
      let r1 := passSweep dl hasAliases true st worklist
      let r2 := passSweep dl hasAliases false r1.2 worklist
      let changed := changed || r1.1 || r2.1
      if r2.2.deferred.isEmpty then (changed, r2.2, true)
      else runLoop dl hasAliases fuel r2.2 changed

/-- The result of a `runOnModule` call. -/
structure RunResult where
  changed : Bool
  module : Module
  nMerged : Nat
  nThunks : Nat
  nAliases : Nat
  nDoubleWeak : Nat
  assertOk : Bool
  completed : Bool
  deriving DecidableEq, Repr

/-- `MergeFunctions::runOnModule`, lines 684-735: queue every defined,
non-available-externally function, loop to a fixed point, clear the set,
report whether anything changed. -/
def runOnModule (dl : Option DataLayout) (hasAliases : Bool) (fuel : Nat)
    (m : Module) : RunResult :=
  let deferred := (m.funcs.filter fun f =>
    ¬f.isDeclaration ∧ ¬(f.linkage = .availableExternally)).map (·.fid)
  let nextId := ((m.funcs.map (·.fid)) ++ (m.aliases.map (·.aid))).foldl max 0 + 1
  let st : PassState :=
    { funcs := m.funcs, aliases := m.aliases, deferred := deferred,
      nextId := nextId }
  let r := runLoop dl hasAliases fuel st false
  { changed := r.1,
    module := { funcs := r.2.1.funcs, aliases := r.2.1.aliases },
    nMerged := r.2.1.nMerged, nThunks := r.2.1.nThunks,
    nAliases := r.2.1.nAliases, nDoubleWeak := r.2.1.nDoubleWeak,
    assertOk := r.2.1.assertOk, completed := r.2.2 }

/-! ### Concrete test fixtures for the claims -/

/-- A 64-bit layout oracle. -/
def exDL64 : DataLayout := ⟨64, fun _ _ => none⟩

def voidFnTy : Ty := .func .void [] false

def voidFnPtrTy : Ty := .pointer voidFnTy 0

/-- A plain defined function with the given linkage, parameters and body. -/
def mkTestFunc (fid : Nat) (lk : Linkage) (params : List Ty)
    (blocks : List Block) : Func :=
  { fid := fid, name := some fid, linkage := lk, attrs := 0, cc := 0,
    gc := none, section_ := none, unnamedAddr := false, visibility := 0,
    alignment := 0, retTy := .void, params := params, varArg := false,
    blocks := blocks }

/-- A two-block body: the entry branches to a second block that returns. -/
def twoBlockBody : List Block :=
  [⟨10, [{ iid := 1, op := .br, ty := .void, operands := [.blockO 11] }]⟩,
   ⟨11, [{ iid := 2, op := .ret, ty := .void, operands := [] }]⟩]

/-- A body whose entry calls the function with id `callee` and branches to a
returning block. -/
def callerBody (callee : Nat) : List Block :=
  [⟨10, [{ iid := 1, op := .call, ty := .void,
           operands := [.constO (.gfun callee voidFnPtrTy)] },
         { iid := 2, op := .br, ty := .void, operands := [.blockO 11] }]⟩,
   ⟨11, [{ iid := 3, op := .ret, ty := .void, operands := [] }]⟩]

/-- C1 input: a function whose single block returns. -/
def c1FuncF : Func :=
  mkTestFunc 1 .external_ []
    [⟨10, [{ iid := 1, op := .ret, ty := .void, operands := [] }]⟩]

/-- C1 input: the same entry block plus a second, unreachable block. -/
def c1FuncG : Func :=
  mkTestFunc 2 .external_ []
    [⟨20, [{ iid := 1, op := .ret, ty := .void, operands := [] }]⟩,
     ⟨21, [{ iid := 2, op := .unreachable_, ty := .void, operands := [] }]⟩]

/-- C7 fixture: two identical single-block, single-instruction functions,
one already seated in the set. -/
def c7TinyFunc : Func :=
  mkTestFunc 4 .external_ []
    [⟨10, [{ iid := 1, op := .ret, ty := .void, operands := [] }]⟩]

def c7State : PassState :=
  { funcs := [mkTestFunc 3 .external_ []
      [⟨10, [{ iid := 1, op := .ret, ty := .void, operands := [] }]⟩],
     c7TinyFunc],
    aliases := [], fnSet := [3], nextId := 10 }

/-- C8 input: three strong functions with the same two-block body, one
taking `i64`, the other two an address-space-0 `i8*` (equivalent under the
64-bit layout oracle). -/
def c8TestModule : Module :=
  ⟨[mkTestFunc 1 .external_ [.integer 64] twoBlockBody,
    mkTestFunc 2 .external_ [.pointer (.integer 8) 0] twoBlockBody,
    mkTestFunc 3 .external_ [.pointer (.integer 8) 0] twoBlockBody], []⟩

/-- A one-function module on which the pass reports no change. -/
def c8UnchangedModule : Module :=
  ⟨[mkTestFunc 1 .external_ [] twoBlockBody], []⟩

/-- C9 input: strong F and G with equal bodies, a strong S calling G, and a
weak W whose body equals S's after S's call is redirected to F. -/
def c9TestModule : Module :=
  ⟨[mkTestFunc 1 .external_ [] twoBlockBody,
    mkTestFunc 2 .external_ [] (callerBody 3),
    mkTestFunc 3 .internal_ [] twoBlockBody,
    mkTestFunc 4 .weak [] (callerBody 1)], []⟩

/-- C10 fixture: function 2 (a member of the set) contains an instruction
whose operand is a `bitcast` constant expression of function 1 — a use of
function 1 through exactly one non-global constant. -/
def c10ChainState : PassState :=
  { funcs := [mkTestFunc 1 .external_ [] twoBlockBody,
      mkTestFunc 2 .external_ []
        [⟨10, [{ iid := 1, op := .call, ty := .void,
                 operands := [.constO (.bc (.gfun 1 voidFnPtrTy)
                   (.pointer (.func .void [.integer 8] false) 0))] },
               { iid := 2, op := .ret, ty := .void, operands := [] }]⟩]],
    aliases := [], fnSet := [2], nextId := 10 }

/-- C10 fixture: function 3 (a member of the set) calls function 1
directly. -/
def c10DirectState : PassState :=
  { funcs := [mkTestFunc 1 .external_ [] twoBlockBody,
      mkTestFunc 3 .external_ [] (callerBody 1)],
    aliases := [], fnSet := [3], nextId := 10 }

/-- The module-level components of a `PassState` that `remove`,
`removeUsers` and the caller-removal prefix of `replaceDirectCallers`
leave untouched (they only edit `FnSet` and `Deferred`). -/
def sameModule (a b : PassState) : Prop :=
  b.funcs = a.funcs ∧ b.aliases = a.aliases ∧ b.nMerged = a.nMerged ∧
  b.nThunks = a.nThunks ∧ b.nAliases = a.nAliases ∧
  b.nDoubleWeak = a.nDoubleWeak ∧ b.assertOk = a.assertOk ∧
  b.nextId = a.nextId

/-- C5 witness input: two weak two-block functions. -/
def c5WitF : Func := mkTestFunc 1 .weak [] twoBlockBody

def c5WitG : Func := mkTestFunc 2 .weak [] twoBlockBody

def c5WitState : PassState :=
  { funcs := [c5WitF, c5WitG], aliases := [], fnSet := [1], nextId := 10 }

/-! #### Spec-side definitions for claim C6 (written from the claim's
wording, to be compared against the code-translated `thunkBody`) -/

/-- The claim's cast rule: int-to-pointer or pointer-to-int conversions
when the kinds differ, bit-cast otherwise. -/
def specCastOp : Ty → Ty → Opcode
  | .integer _, .pointer _ _ => .inttoptr
  | .pointer _ _, .integer _ => .ptrtoint
  | _, _ => .bitcast

/-- The claim's argument-cast sequence: each argument is cast (by position)
to F's corresponding parameter type; arguments already of the right type
pass through.  Returns the call arguments, the emitted cast instructions
and the next fresh register. -/
def specArgCasts (fparams : List Ty) : Nat → Nat → List Ty →
    List Operand × List Instr × Nat
  | _, nid, [] => ([], [], nid)
  | i, nid, gty :: rest =>
      let fty := fparams.getD i .void
      if gty = fty then
        let r := specArgCasts fparams (i + 1) nid rest
        (.argO i :: r.1, r.2.1, r.2.2)
      else
        let r := specArgCasts fparams (i + 1) (nid + 1) rest
        (.regO nid :: r.1,
         { iid := nid, op := specCastOp gty fty, ty := fty,
           operands := [.argO i] } :: r.2.1, r.2.2)

/-- Claim C6's thunk body: the argument casts, a tail call to F with F's
calling convention, and a return of void or the (possibly cast-back) call
result. -/
def specThunkBody (fFid : Nat) (F G : Func) : List Instr :=
  let ac := specArgCasts F.params 0 1 G.params
  let callI : Instr :=
    { iid := ac.2.2, op := .call, ty := F.retTy,
      operands := ac.1 ++ [.constO (.gfun fFid F.ptrTy)],
      tailCall := true, callCC := F.cc }
  if G.retTy = .void then
    ac.2.1 ++ [callI,
      { iid := ac.2.2 + 1, op := .ret, ty := .void, operands := [] }]
  else if F.retTy = G.retTy then
    ac.2.1 ++ [callI,
      { iid := ac.2.2 + 1, op := .ret, ty := .void,
        operands := [.regO ac.2.2] }]
  else
    ac.2.1 ++ [callI,
      { iid := ac.2.2 + 1, op := specCastOp F.retTy G.retTy, ty := G.retTy,
        operands := [.regO ac.2.2] },
      { iid := ac.2.2 + 2, op := .ret, ty := .void,
        operands := [.regO (ac.2.2 + 1)] }]

/-- C6 witness input: two strong defined functions with equal signatures. -/
def c6WitF : Func := mkTestFunc 1 .external_ [] twoBlockBody

def c6WitG : Func := mkTestFunc 2 .external_ [] twoBlockBody

def c6WitState : PassState :=
  { funcs := [c6WitF, c6WitG], aliases := [], nextId := 10 }

/-! ### The claims -/

/-! #### Frame and lookup lemmas for the merge-state machinery -/

theorem sameModule_refl (a : PassState) : sameModule a a :=
  ⟨rfl, rfl, rfl, rfl, rfl, rfl, rfl, rfl⟩

theorem sameModule_trans {a b c : PassState} (h1 : sameModule a b)
    (h2 : sameModule b c) : sameModule a c := by
  obtain ⟨x1, x2, x3, x4, x5, x6, x7, x8⟩ := h1
  obtain ⟨y1, y2, y3, y4, y5, y6, y7, y8⟩ := h2
  exact ⟨y1.trans x1, y2.trans x2, y3.trans x3, y4.trans x4, y5.trans x5,
    y6.trans x6, y7.trans x7, y8.trans x8⟩

theorem removeFn_sameModule (st : PassState) (fid : Nat) :
    sameModule st (removeFn st fid) := by
  unfold removeFn
  split
  · exact ⟨rfl, rfl, rfl, rfl, rfl, rfl, rfl, rfl⟩
  · exact sameModule_refl st

theorem removeUsersScan_sameModule (stm : PassState) :
    ∀ (l : List Value) (st : PassState),
      sameModule st (removeUsersScan stm st l).1 := by
  intro l
  induction l with
  | nil => intro st; exact sameModule_refl st
  | cons u rest ih =>
      intro st
      cases u with
      | instV f i =>
          exact sameModule_trans (removeFn_sameModule st f)
            (by simpa [removeUsersScan] using ih (removeFn st f))
      | argV a b =>
          simpa [removeUsersScan, Value.isGlobalValue] using ih st
      | blockV a b =>
          simpa [removeUsersScan, Value.isGlobalValue] using ih st
      | asmV a =>
          simpa [removeUsersScan, Value.isGlobalValue] using ih st
      | constV c =>
          by_cases hg : (Value.constV c).isGlobalValue
          · simpa [removeUsersScan, hg] using ih st
          · simpa [removeUsersScan, hg] using ih st

theorem removeUsersLoop_sameModule :
    ∀ (fuel : Nat) (ws : List Value) (st : PassState),
      sameModule st (removeUsersLoop st fuel ws) := by
  intro fuel
  induction fuel with
  | zero =>
      intro ws st
      cases ws with
      | nil => exact sameModule_refl st
      | cons v rest => exact sameModule_refl st
  | succ n ih =>
      intro ws st
      cases ws with
      | nil => exact sameModule_refl st
      | cons v rest =>
          rw [removeUsersLoop]
          exact sameModule_trans (removeUsersScan_sameModule st _ st) (ih _ _)

theorem removeUsers_sameModule (st : PassState) (v : Value) :
    sameModule st (removeUsers st v) :=
  removeUsersLoop_sameModule _ _ st

theorem foldl_removeFn_sameModule :
    ∀ (l : List Nat) (st : PassState), sameModule st (l.foldl removeFn st) := by
  intro l
  induction l with
  | nil => intro st; exact sameModule_refl st
  | cons a rest ih =>
      intro st
      exact sameModule_trans (removeFn_sameModule st a) (ih (removeFn st a))

/-! Lookup lemmas. -/

theorem findFunc_eq_some_fid {st : PassState} {b : Nat} {F : Func}
    (h : st.findFunc b = some F) : F.fid = b := by
  have := List.find?_some h
  simpa using this

theorem fid_lt_of_findFunc {st : PassState} {b : Nat} {F : Func}
    (h : st.findFunc b = some F)
    (hfresh : st.funcs.all (fun f => f.fid < st.nextId) = true) :
    b < st.nextId := by
  have hmem : F ∈ st.funcs := List.mem_of_find?_eq_some h
  have := List.all_eq_true.mp hfresh F hmem
  simpa [findFunc_eq_some_fid h] using this

theorem find?_fid_map (ψ : Func → Func) (hψ : ∀ f, (ψ f).fid = f.fid)
    (b : Nat) : ∀ (l : List Func),
    (l.map ψ).find? (·.fid == b) = (l.find? (·.fid == b)).map ψ := by
  intro l
  induction l with
  | nil => rfl
  | cons x xs ih =>
      by_cases hx : x.fid = b
      · have hb : (x.fid == b) = true := by simpa using hx
        simp [List.find?, hb, hψ]
      · have hb : (x.fid == b) = false := by simpa using hx
        simp [List.find?, hb, hψ, ih]

theorem find?_fid_condmap (a : Nat) (φ : Func → Func)
    (hφ : ∀ f, (φ f).fid = f.fid) (b : Nat) : ∀ (l : List Func),
    (l.map fun f => if f.fid = a then φ f else f).find? (·.fid == b) =
      if b = a then (l.find? (·.fid == b)).map φ
      else l.find? (·.fid == b) := by
  intro l
  induction l with
  | nil => cases Decidable.em (b = a) <;> simp [*]
  | cons x xs ih =>
      by_cases hx : x.fid = b
      · have hb : (x.fid == b) = true := by simpa using hx
        by_cases hba : b = a
        · have hxa : x.fid = a := hba ▸ hx
          simp [List.find?, hb, hφ, hxa, hba]
        · have hxa : ¬ x.fid = a := fun h => hba (hx ▸ h ▸ rfl)
          simp [List.find?, hb, hxa, hba]
      · have hb : (x.fid == b) = false := by simpa using hx
        by_cases hxa : x.fid = a
        · have hb2 : ((φ x).fid == b) = false := by simpa [hφ] using hx
          have hba : ¬ b = a := fun h => hx (h ▸ hxa)
          have hab : (a == b) = false := by
            simpa using fun h => hx (hxa.trans h)
          simpa [List.find?, hb, hb2, hxa, hba, hab] using ih
        · simpa [List.find?, hb, hxa] using ih

theorem find?_fid_filterne (a b : Nat) : ∀ (l : List Func),
    (l.filter (·.fid ≠ a)).find? (·.fid == b) =
      if b = a then none else l.find? (·.fid == b) := by
  intro l
  induction l with
  | nil => cases Decidable.em (b = a) <;> simp [*]
  | cons x xs ih =>
      by_cases hxa : x.fid = a
      · by_cases hba : b = a
        · simpa [List.filter, hxa, hba] using ih
        · have hb : (x.fid == b) = false := by
            simp [hxa]; intro h; exact hba (h ▸ rfl)
          have hab : (a == b) = false := by
            simpa using fun h : a = b => hba (h ▸ rfl)
          simpa [List.filter, List.find?, hxa, hb, hba, hab] using ih
      · by_cases hx : x.fid = b
        · have hba : ¬ b = a := fun h => hxa (hx ▸ h ▸ rfl)
          have hb : (x.fid == b) = true := by simpa using hx
          simp [List.filter, hxa, hb, hba, List.find?]
        · have hb : (x.fid == b) = false := by simpa using hx
          simpa [List.filter, hxa, hb, List.find?] using ih

theorem findFunc_updateFunc (st : PassState) (a : Nat) (φ : Func → Func)
    (hφ : ∀ f, (φ f).fid = f.fid) (b : Nat) :
    (st.updateFunc a φ).findFunc b =
      if b = a then (st.findFunc b).map φ else st.findFunc b := by
  simp only [PassState.updateFunc, PassState.findFunc]
  exact find?_fid_condmap a φ hφ b st.funcs

theorem findFunc_eraseFunc (st : PassState) (a b : Nat) :
    (st.eraseFunc a).findFunc b =
      if b = a then none else st.findFunc b := by
  simp only [PassState.eraseFunc, PassState.findFunc]
  exact find?_fid_filterne a b st.funcs

theorem findFunc_rauwFunc (st : PassState) (g : Nat) (r : Const) (b : Nat) :
    (st.rauwFunc g r).findFunc b =
      (st.findFunc b).map (Func.substBlocks · g r) := by
  simp only [PassState.rauwFunc, PassState.findFunc]
  exact find?_fid_map (fun x => x.substBlocks g r) (fun f => rfl) b st.funcs

theorem find?_append_some {l1 l2 : List Func} {p : Func → Bool} {x : Func}
    (h : l1.find? p = some x) : (l1 ++ l2).find? p = some x := by
  induction l1 with
  | nil => simp [List.find?] at h
  | cons y ys ih =>
      cases hp : p y with
      | true => simp_all [List.find?]
      | false => simp_all [List.find?]

theorem find?_append_none {l1 l2 : List Func} {p : Func → Bool}
    (h : l1.find? p = none) : (l1 ++ l2).find? p = l2.find? p := by
  induction l1 with
  | nil => rfl
  | cons y ys ih =>
      cases hp : p y with
      | true => simp_all [List.find?]
      | false => simp_all [List.find?]

/-- A fresh id is found nowhere in a list whose fids are all below it. -/
theorem find?_fid_none_of_fresh {l : List Func} {n : Nat}
    (h : l.all (fun f => f.fid < n) = true) :
    l.find? (·.fid == n) = none := by
  rw [List.find?_eq_none]
  intro x hx hb
  have := List.all_eq_true.mp h x hx
  simp at hb this
  omega

/-! Header-field preservation. -/

@[simp] theorem substBlocks_fid (f : Func) (g : Nat) (r : Const) :
    (f.substBlocks g r).fid = f.fid := rfl
@[simp] theorem substBlocks_name (f : Func) (g : Nat) (r : Const) :
    (f.substBlocks g r).name = f.name := rfl
@[simp] theorem substBlocks_linkage (f : Func) (g : Nat) (r : Const) :
    (f.substBlocks g r).linkage = f.linkage := rfl
@[simp] theorem substBlocks_alignment (f : Func) (g : Nat) (r : Const) :
    (f.substBlocks g r).alignment = f.alignment := rfl
@[simp] theorem substBlocks_visibility (f : Func) (g : Nat) (r : Const) :
    (f.substBlocks g r).visibility = f.visibility := rfl
@[simp] theorem substBlocks_ptrTy (f : Func) (g : Nat) (r : Const) :
    (f.substBlocks g r).ptrTy = f.ptrTy := rfl
@[simp] theorem substBlocks_params (f : Func) (g : Nat) (r : Const) :
    (f.substBlocks g r).params = f.params := rfl
@[simp] theorem substBlocks_retTy (f : Func) (g : Nat) (r : Const) :
    (f.substBlocks g r).retTy = f.retTy := rfl
@[simp] theorem substBlocks_cc (f : Func) (g : Nat) (r : Const) :
    (f.substBlocks g r).cc = f.cc := rfl
@[simp] theorem substBlocks_attrs (f : Func) (g : Nat) (r : Const) :
    (f.substBlocks g r).attrs = f.attrs := rfl
@[simp] theorem substBlocks_varArg (f : Func) (g : Nat) (r : Const) :
    (f.substBlocks g r).varArg = f.varArg := rfl
@[simp] theorem substBlocks_mayBeOverridden (f : Func) (g : Nat) (r : Const) :
    (f.substBlocks g r).mayBeOverridden = f.mayBeOverridden := rfl

@[simp] theorem retargetCalls_fid (f : Func) (o : Nat) (c : Const) :
    (f.retargetCalls o c).fid = f.fid := rfl
@[simp] theorem retargetCalls_name (f : Func) (o : Nat) (c : Const) :
    (f.retargetCalls o c).name = f.name := rfl
@[simp] theorem retargetCalls_linkage (f : Func) (o : Nat) (c : Const) :
    (f.retargetCalls o c).linkage = f.linkage := rfl
@[simp] theorem retargetCalls_ptrTy (f : Func) (o : Nat) (c : Const) :
    (f.retargetCalls o c).ptrTy = f.ptrTy := rfl
@[simp] theorem retargetCalls_params (f : Func) (o : Nat) (c : Const) :
    (f.retargetCalls o c).params = f.params := rfl
@[simp] theorem retargetCalls_retTy (f : Func) (o : Nat) (c : Const) :
    (f.retargetCalls o c).retTy = f.retTy := rfl
@[simp] theorem retargetCalls_cc (f : Func) (o : Nat) (c : Const) :
    (f.retargetCalls o c).cc = f.cc := rfl
@[simp] theorem retargetCalls_attrs (f : Func) (o : Nat) (c : Const) :
    (f.retargetCalls o c).attrs = f.attrs := rfl
@[simp] theorem retargetCalls_varArg (f : Func) (o : Nat) (c : Const) :
    (f.retargetCalls o c).varArg = f.varArg := rfl
@[simp] theorem retargetCalls_mayBeOverridden (f : Func) (o : Nat) (c : Const) :
    (f.retargetCalls o c).mayBeOverridden = f.mayBeOverridden := rfl
@[simp] theorem retargetCalls_hasLocalLinkage (f : Func) (o : Nat) (c : Const) :
    (f.retargetCalls o c).hasLocalLinkage = f.hasLocalLinkage := rfl

/-- Substitution is the identity on a (folded) bitcast of a function other
than the one being replaced. -/
theorem substG_getBitCast_gfun (f g : Nat) (t ty : Ty) (h : ¬ f = g)
    (r : Const) :
    (Const.getBitCast (.gfun f t) ty).substG g r =
      Const.getBitCast (.gfun f t) ty := by
  by_cases h1 : t = ty
  · simp [Const.getBitCast, Const.type, h1, Const.substG, h]
  · simp [Const.getBitCast, Const.type, h1, Const.isNullValue, Const.substG, h]

theorem findFunc_eq_of_funcs_eq {a b : PassState} (h : a.funcs = b.funcs)
    (x : Nat) : a.findFunc x = b.findFunc x := by
  simp [PassState.findFunc, h]

theorem map_fid_congr (ψ : Func → Func) (hψ : ∀ f, (ψ f).fid = f.fid) :
    ∀ (l : List Func), (l.map ψ).map (·.fid) = l.map (·.fid) := by
  intro l
  induction l with
  | nil => rfl
  | cons x xs ih => simp [hψ, ih]

theorem map_fid_filterne (g : Nat) : ∀ (l : List Func),
    (l.filter (·.fid ≠ g)).map (·.fid) = (l.map (·.fid)).filter (· ≠ g) := by
  intro l
  induction l with
  | nil => rfl
  | cons x xs ih =>
      simp only [List.map_cons, List.filter_cons]
      by_cases hx : x.fid = g
      · rw [if_neg (by simp [hx]), if_neg (by simp [hx])]
        exact ih
      · rw [if_pos (by simp [hx]), if_pos (by simp [hx])]
        simp only [List.map_cons]
        rw [ih]

@[simp] theorem findFunc_bump (x : PassState) (b : Nat) :
    (PassState.mk x.funcs x.aliases x.fnSet x.deferred x.nMerged x.nThunks
      (x.nAliases + 1) x.nDoubleWeak x.assertOk x.nextId).findFunc b =
      x.findFunc b := rfl

@[simp] theorem findFunc_bump2 (x : PassState) (b : Nat) :
    (PassState.mk x.funcs x.aliases x.fnSet x.deferred (x.nMerged + 1)
      x.nThunks x.nAliases (x.nDoubleWeak + 1) x.assertOk x.nextId).findFunc b =
      x.findFunc b := rfl

/-- The full effect of a successful `writeAlias` on the module parts of the
state: the alias list gains `GlobalAlias(G->getType(), G->getLinkage(),
G's name and visibility, bitcast(F))` at the end (pre-existing aliasees
have G substituted by the new alias), G disappears from the function list,
F's alignment is raised to the max with G's, the alias statistic rises by
one and one fresh id is consumed. -/
theorem writeAlias_effect (st : PassState) (f g : Nat) (F G : Func)
    (hF : st.findFunc f = some F) (hG : st.findFunc g = some G)
    (hfg : ¬ f = g) :
    (writeAlias st f g).findFunc f =
        some (Func.substBlocks { F with alignment := max F.alignment G.alignment }
          g (.gali st.nextId G.ptrTy)) ∧
    (∀ b, ¬ b = g → ¬ b = f → (writeAlias st f g).findFunc b =
        (st.findFunc b).map (Func.substBlocks · g (.gali st.nextId G.ptrTy))) ∧
    (writeAlias st f g).funcs.map (·.fid) =
        (st.funcs.map (·.fid)).filter (· ≠ g) ∧
    (writeAlias st f g).aliases =
      st.aliases.map
          (fun a => { a with aliasee := a.aliasee.substG g (.gali st.nextId G.ptrTy) }) ++
        [{ aid := st.nextId, name := G.name, linkage := G.linkage,
           visibility := G.visibility, ty := G.ptrTy,
           aliasee := Const.getBitCast (.gfun f F.ptrTy) G.ptrTy }] ∧
    (writeAlias st f g).nMerged = st.nMerged ∧
    (writeAlias st f g).nThunks = st.nThunks ∧
    (writeAlias st f g).nAliases = st.nAliases + 1 ∧
    (writeAlias st f g).nDoubleWeak = st.nDoubleWeak ∧
    (writeAlias st f g).assertOk = st.assertOk ∧
    (writeAlias st f g).nextId = st.nextId + 1 := by
  have hFfid : F.fid = f := findFunc_eq_some_fid hF
  have hu1 : ∀ x : Func,
      (({ x with alignment := max x.alignment G.alignment } : Func)).fid = x.fid :=
    fun _ => rfl
  have hu2 : ∀ x : Func, (({ x with name := none } : Func)).fid = x.fid :=
    fun _ => rfl
  have hv1 : ∀ x : Func,
      ((if x.fid = f then { x with alignment := max x.alignment G.alignment }
        else x) : Func).fid = x.fid := by
    intro x; split <;> rfl
  have hv2 : ∀ x : Func,
      ((if x.fid = g then { x with name := none } else x) : Func).fid = x.fid := by
    intro x; split <;> rfl
  have hsub : ∀ x : Func,
      ((Func.substBlocks x g (.gali st.nextId G.ptrTy)) : Func).fid = x.fid :=
    fun _ => rfl
  simp only [writeAlias, hF, hG]
  generalize hD :
    removeUsers
      ((({ st with aliases := _, nextId := _ } : PassState).updateFunc f _).updateFunc g _)
      (.constV (.gfun g G.ptrTy)) = stD
  have hDsm : sameModule _ stD := hD ▸ removeUsers_sameModule _ _
  obtain ⟨hDfuncs, hDaliases, hDm, hDt, hDa, hDw, hDok, hDnext⟩ := hDsm
  refine ⟨?_, ?_, ?_, ?_, ?_, ?_, ?_, ?_, ?_, ?_⟩
  · rw [findFunc_bump, findFunc_eraseFunc, if_neg hfg, findFunc_rauwFunc,
      findFunc_eq_of_funcs_eq hDfuncs f,
      findFunc_updateFunc _ _ _ hu2, if_neg hfg,
      findFunc_updateFunc _ _ _ hu1, if_pos rfl]
    show Option.map _ (Option.map _ (st.findFunc f)) = _
    rw [hF]
    rfl
  · intro b hbg hbf
    rw [findFunc_bump, findFunc_eraseFunc, if_neg hbg, findFunc_rauwFunc,
      findFunc_eq_of_funcs_eq hDfuncs b,
      findFunc_updateFunc _ _ _ hu2, if_neg hbg,
      findFunc_updateFunc _ _ _ hu1, if_neg hbf]
    rfl
  · show ((((stD.rauwFunc g _).eraseFunc g).funcs).map (·.fid)) = _
    simp only [PassState.eraseFunc, PassState.rauwFunc]
    rw [hDfuncs]
    simp only [PassState.updateFunc]
    rw [map_fid_filterne, map_fid_congr _ hsub, map_fid_congr _ hv2,
      map_fid_congr _ hv1]
  · show (((stD.rauwFunc g _).eraseFunc g).aliases) = _
    simp only [PassState.eraseFunc, PassState.rauwFunc]
    rw [hDaliases]
    simp only [PassState.updateFunc, List.map_append, List.map_cons,
      List.map_nil]
    rw [substG_getBitCast_gfun f g _ _ hfg]
  · exact hDm
  · exact hDt
  · exact congrArg (· + 1) hDa
  · exact hDw
  · exact hDok
  · exact hDnext

@[simp] theorem copyAttributesFrom_alignment (d s : Func) :
    (d.copyAttributesFrom s).alignment = s.alignment := rfl
@[simp] theorem copyAttributesFrom_visibility (d s : Func) :
    (d.copyAttributesFrom s).visibility = s.visibility := rfl
@[simp] theorem copyAttributesFrom_cc (d s : Func) :
    (d.copyAttributesFrom s).cc = s.cc := rfl
@[simp] theorem copyAttributesFrom_attrs (d s : Func) :
    (d.copyAttributesFrom s).attrs = s.attrs := rfl
@[simp] theorem copyAttributesFrom_name (d s : Func) :
    (d.copyAttributesFrom s).name = d.name := rfl
@[simp] theorem copyAttributesFrom_linkage (d s : Func) :
    (d.copyAttributesFrom s).linkage = d.linkage := rfl
@[simp] theorem copyAttributesFrom_fid (d s : Func) :
    (d.copyAttributesFrom s).fid = d.fid := rfl
@[simp] theorem copyAttributesFrom_retTy (d s : Func) :
    (d.copyAttributesFrom s).retTy = d.retTy := rfl
@[simp] theorem copyAttributesFrom_params (d s : Func) :
    (d.copyAttributesFrom s).params = d.params := rfl
@[simp] theorem copyAttributesFrom_varArg (d s : Func) :
    (d.copyAttributesFrom s).varArg = d.varArg := rfl
@[simp] theorem copyAttributesFrom_ptrTy (d s : Func) :
    (d.copyAttributesFrom s).ptrTy = d.ptrTy := rfl

theorem drop_len_append {α : Type} (l1 l2 : List α) (n : Nat)
    (h : l1.length = n) : (l1 ++ l2).drop n = l2 := by
  subst h
  exact List.drop_left l1 l2

theorem filter_fid_fresh (L : List Nat) (n g : Nat) (hng : ¬ n = g)
    (hL : L.all (· < n) = true) :
    ((L ++ [n]).filter (· ≠ g)).filter (· ≠ n) = L.filter (· ≠ g) := by
  rw [List.filter_append]
  have h1 : List.filter (fun x => decide (x ≠ g)) [n] = [n] := by simp [hng]
  rw [h1, List.filter_append]
  have h2 : List.filter (fun x => decide (x ≠ n)) [n] = [] := by simp
  rw [h2, List.append_nil]
  rw [List.filter_eq_self]
  intro x hx
  have hxL : x ∈ L := List.mem_of_mem_filter hx
  have := List.all_eq_true.mp hL x hxL
  simp at this ⊢
  omega

/-- Claim C5: merging two overridable (weak) functions with alias support
produces two new aliases binding both original names to the single
surviving private implementation, whose alignment is the max of the two. -/
theorem c5_double_weak_merge (st : PassState) (fFid gFid : Nat) (F G : Func)
    (hF : st.findFunc fFid = some F) (hG : st.findFunc gFid = some G)
    (hne : ¬ fFid = gFid)
    (hFw : F.mayBeOverridden = true) (hGw : G.mayBeOverridden = true)
    (hfresh : st.funcs.all (fun f => f.fid < st.nextId) = true) :
    (mergeTwoFunctions true st fFid gFid).nMerged = st.nMerged + 1 ∧
    (mergeTwoFunctions true st fFid gFid).nAliases = st.nAliases + 2 ∧
    (mergeTwoFunctions true st fFid gFid).nDoubleWeak = st.nDoubleWeak + 1 ∧
    (mergeTwoFunctions true st fFid gFid).nThunks = st.nThunks ∧
    (mergeTwoFunctions true st fFid gFid).assertOk = st.assertOk ∧
    (mergeTwoFunctions true st fFid gFid).nextId = st.nextId + 3 ∧
    (mergeTwoFunctions true st fFid gFid).funcs.map (·.fid) =
      (st.funcs.map (·.fid)).filter (· ≠ gFid) ∧
    (mergeTwoFunctions true st fFid gFid).aliases.length =
      st.aliases.length + 2 ∧
    (mergeTwoFunctions true st fFid gFid).aliases.drop st.aliases.length =
      [{ aid := st.nextId + 1, name := G.name, linkage := G.linkage,
         visibility := G.visibility, ty := G.ptrTy,
         aliasee := Const.getBitCast (.gfun fFid F.ptrTy) G.ptrTy },
       { aid := st.nextId + 2, name := F.name, linkage := F.linkage,
         visibility := F.visibility, ty := F.ptrTy,
         aliasee := .gfun fFid F.ptrTy }] ∧
    (∃ F', (mergeTwoFunctions true st fFid gFid).findFunc fFid = some F' ∧
      F'.linkage = .priv ∧ F'.name = none ∧
      F'.alignment = max F.alignment G.alignment) := by
  have hFfid : F.fid = fFid := findFunc_eq_some_fid hF
  have hGfid : G.fid = gFid := findFunc_eq_some_fid hG
  have hflt : fFid < st.nextId := fid_lt_of_findFunc hF hfresh
  have hglt : gFid < st.nextId := fid_lt_of_findFunc hG hfresh
  have hfh : ¬ fFid = st.nextId := by omega
  have hgh : ¬ gFid = st.nextId := by omega
  have hhf : ¬ st.nextId = fFid := fun h => hfh h.symm
  have hhg : ¬ st.nextId = gFid := fun h => hgh h.symm
  have hgf : ¬ gFid = fFid := fun h => hne h.symm
  simp only [mergeTwoFunctions, hF, hG, hFw, if_true]
  generalize hD :
    removeUsers
      (((({ st with funcs := _, assertOk := _, nextId := _ } : PassState).updateFunc _ _).updateFunc _ _).updateFunc _ _)
      (.constV (.gfun fFid F.ptrTy)) = stD
  have hDsm : sameModule _ stD := hD ▸ removeUsers_sameModule _ _
  obtain ⟨hDfuncs, hDaliases, hDm, hDt, hDa, hDw, hDok, hDnext⟩ := hDsm
  have hH6 : (stD.rauwFunc fFid (Const.gfun st.nextId F.ptrTy)).findFunc
      st.nextId = some
      { fid := st.nextId, name := F.name, linkage := F.linkage,
        attrs := F.attrs, cc := F.cc, gc := F.gc, section_ := F.section_,
        unnamedAddr := F.unnamedAddr, visibility := F.visibility,
        alignment := F.alignment, retTy := F.retTy, params := F.params,
        varArg := F.varArg, blocks := [] } := by
    rw [findFunc_rauwFunc, findFunc_eq_of_funcs_eq hDfuncs,
      findFunc_updateFunc _ fFid (fun f => { f with name := none })
        (fun _ => rfl), if_neg hhf,
      findFunc_updateFunc _ st.nextId (fun n => { n with name := F.name })
        (fun _ => rfl), if_pos rfl,
      findFunc_updateFunc _ st.nextId (fun n => n.copyAttributesFrom F)
        (fun _ => rfl), if_pos rfl]
    simp only [PassState.findFunc]
    rw [find?_append_none (find?_fid_none_of_fresh hfresh)]
    simp [List.find?, Func.copyAttributesFrom, Func.substBlocks]
  have hF6 : (stD.rauwFunc fFid (Const.gfun st.nextId F.ptrTy)).findFunc
      fFid = some (Func.substBlocks { F with name := none } fFid
        (Const.gfun st.nextId F.ptrTy)) := by
    rw [findFunc_rauwFunc, findFunc_eq_of_funcs_eq hDfuncs,
      findFunc_updateFunc _ fFid (fun f => { f with name := none })
        (fun _ => rfl), if_pos rfl,
      findFunc_updateFunc _ st.nextId (fun n => { n with name := F.name })
        (fun _ => rfl), if_neg hfh,
      findFunc_updateFunc _ st.nextId (fun n => n.copyAttributesFrom F)
        (fun _ => rfl), if_neg hfh]
    simp only [PassState.findFunc]
    rw [find?_append_some hF]
    rfl
  have hG6 : (stD.rauwFunc fFid (Const.gfun st.nextId F.ptrTy)).findFunc
      gFid = some (Func.substBlocks G fFid (Const.gfun st.nextId F.ptrTy)) := by
    rw [findFunc_rauwFunc, findFunc_eq_of_funcs_eq hDfuncs,
      findFunc_updateFunc _ fFid (fun f => { f with name := none })
        (fun _ => rfl), if_neg hgf,
      findFunc_updateFunc _ st.nextId (fun n => { n with name := F.name })
        (fun _ => rfl), if_neg hgh,
      findFunc_updateFunc _ st.nextId (fun n => n.copyAttributesFrom F)
        (fun _ => rfl), if_neg hgh]
    simp only [PassState.findFunc]
    rw [find?_append_some hG]
    rfl
  rw [hH6]
  simp only [Option.map_some', Option.getD_some]
  obtain ⟨w1f, w1o, w1fid, w1al, w1m, w1t, w1a, w1w, w1ok, w1next⟩ :=
    writeAlias_effect (stD.rauwFunc fFid (Const.gfun st.nextId F.ptrTy))
      fFid gFid
      (Func.substBlocks { F with name := none } fFid
        (Const.gfun st.nextId F.ptrTy))
      (Func.substBlocks G fFid (Const.gfun st.nextId F.ptrTy))
      hF6 hG6 hne
  have hH7 := w1o st.nextId hhg hhf
  rw [hH6] at hH7
  simp only [Option.map_some'] at hH7
  obtain ⟨w2f, w2o, w2fid, w2al, w2m, w2t, w2a, w2w, w2ok, w2next⟩ :=
    writeAlias_effect
      (writeAlias (stD.rauwFunc fFid (Const.gfun st.nextId F.ptrTy)) fFid gFid)
      fFid st.nextId _ _ w1f hH7 hfh
  have hDn : stD.nextId = st.nextId + 1 := hDnext.trans rfl
  refine ⟨?_, ?_, ?_, ?_, ?_, ?_, ?_, ?_, ?_, ?_⟩
  · show (writeAlias (writeAlias (stD.rauwFunc fFid
        (Const.gfun st.nextId F.ptrTy)) fFid gFid) fFid st.nextId).nMerged + 1
      = st.nMerged + 1
    rw [w2m, w1m]
    show stD.nMerged + 1 = st.nMerged + 1
    rw [hDm]
    rfl
  · show (writeAlias (writeAlias (stD.rauwFunc fFid
        (Const.gfun st.nextId F.ptrTy)) fFid gFid) fFid st.nextId).nAliases
      = st.nAliases + 2
    rw [w2a, w1a]
    show stD.nAliases + 1 + 1 = st.nAliases + 2
    rw [hDa]
    rfl
  · show (writeAlias (writeAlias (stD.rauwFunc fFid
        (Const.gfun st.nextId F.ptrTy)) fFid gFid) fFid st.nextId).nDoubleWeak + 1
      = st.nDoubleWeak + 1
    rw [w2w, w1w]
    show stD.nDoubleWeak + 1 = st.nDoubleWeak + 1
    rw [hDw]
    rfl
  · show (writeAlias (writeAlias (stD.rauwFunc fFid
        (Const.gfun st.nextId F.ptrTy)) fFid gFid) fFid st.nextId).nThunks
      = st.nThunks
    rw [w2t, w1t]
    show stD.nThunks = st.nThunks
    rw [hDt]
    rfl
  · show (writeAlias (writeAlias (stD.rauwFunc fFid
        (Const.gfun st.nextId F.ptrTy)) fFid gFid) fFid st.nextId).assertOk
      = st.assertOk
    rw [w2ok, w1ok]
    show stD.assertOk = st.assertOk
    rw [hDok]
    show (st.assertOk && G.mayBeOverridden) = st.assertOk
    rw [hGw, Bool.and_true]
  · show (writeAlias (writeAlias (stD.rauwFunc fFid
        (Const.gfun st.nextId F.ptrTy)) fFid gFid) fFid st.nextId).nextId
      = st.nextId + 3
    rw [w2next, w1next]
    show stD.nextId + 1 + 1 = st.nextId + 3
    rw [hDn]
  · -- surviving function ids
    have hifa : ∀ x : Func,
        ((if x.fid = st.nextId then x.copyAttributesFrom F else x) : Func).fid
          = x.fid := fun x => by split <;> rfl
    have hifb : ∀ x : Func,
        ((if x.fid = st.nextId then { x with name := F.name } else x) : Func).fid
          = x.fid := fun x => by split <;> rfl
    have hifc : ∀ x : Func,
        ((if x.fid = fFid then { x with name := none } else x) : Func).fid
          = x.fid := fun x => by split <;> rfl
    have hifα : ∀ x : Func,
        ((if x.fid = fFid then
            { x with alignment := G.alignment ⊔ F.alignment } else x) : Func).fid
          = x.fid := fun x => by split <;> rfl
    have hifπ : ∀ x : Func,
        ((if x.fid = fFid then { x with linkage := Linkage.priv } else x) :
          Func).fid = x.fid := fun x => by split <;> rfl
    have h6fid : (stD.rauwFunc fFid (Const.gfun st.nextId F.ptrTy)).funcs.map
        (·.fid) = st.funcs.map (·.fid) ++ [st.nextId] := by
      show (stD.funcs.map (Func.substBlocks · fFid
        (Const.gfun st.nextId F.ptrTy))).map (fun x : Func => x.fid)
        = st.funcs.map (fun x : Func => x.fid) ++ [st.nextId]
      rw [map_fid_congr (Func.substBlocks · fFid
        (Const.gfun st.nextId F.ptrTy)) (fun _ => rfl), hDfuncs]
      simp only [PassState.updateFunc]
      rw [map_fid_congr _ hifc, map_fid_congr _ hifb, map_fid_congr _ hifa]
      simp
    have hLall : (st.funcs.map (·.fid)).all (· < st.nextId) = true := by
      simpa [List.all_map, Function.comp] using hfresh
    simp only [PassState.updateFunc]
    rw [map_fid_congr _ hifπ, map_fid_congr _ hifα, w2fid, w1fid, h6fid]
    exact filter_fid_fresh _ _ _ hhg hLall
  · -- alias list length
    have h6next : (stD.rauwFunc fFid (Const.gfun st.nextId F.ptrTy)).nextId
        = st.nextId + 1 := hDn
    have h6al : (stD.rauwFunc fFid (Const.gfun st.nextId F.ptrTy)).aliases
        = st.aliases.map (fun a => { a with aliasee := a.aliasee.substG fFid (Const.gfun st.nextId F.ptrTy) }) := by
      simp only [PassState.rauwFunc]
      rw [hDaliases]
      simp only [PassState.updateFunc]
    rw [h6al] at w1al
    rw [w1al] at w2al
    show (writeAlias (writeAlias (stD.rauwFunc fFid
        (Const.gfun st.nextId F.ptrTy)) fFid gFid) fFid st.nextId).aliases.length
      = st.aliases.length + 2
    rw [w2al]
    simp
  · -- the two new aliases
    have h6next : (stD.rauwFunc fFid (Const.gfun st.nextId F.ptrTy)).nextId
        = st.nextId + 1 := hDn
    have h7next : (writeAlias (stD.rauwFunc fFid
        (Const.gfun st.nextId F.ptrTy)) fFid gFid).nextId = st.nextId + 2 := by
      rw [w1next, h6next]
    have h6al : (stD.rauwFunc fFid (Const.gfun st.nextId F.ptrTy)).aliases
        = st.aliases.map (fun a => { a with aliasee := a.aliasee.substG fFid (Const.gfun st.nextId F.ptrTy) }) := by
      simp only [PassState.rauwFunc]
      rw [hDaliases]
      simp only [PassState.updateFunc]
    rw [h6next, h6al] at w1al
    rw [h7next, w1al] at w2al
    rw [List.map_append] at w2al
    simp only [List.map_cons, List.map_nil] at w2al
    rw [substG_getBitCast_gfun fFid st.nextId _ _ hfh] at w2al
    simp only [substBlocks_name, substBlocks_linkage, substBlocks_visibility,
      substBlocks_ptrTy, substBlocks_retTy, substBlocks_params,
      substBlocks_varArg, substBlocks_alignment, substBlocks_fid, h6next,
      Func.ptrTy, Func.funcType] at w2al
    have hfold : Const.getBitCast
        (.gfun fFid (.pointer (.func F.retTy F.params F.varArg) 0))
        (.pointer (.func F.retTy F.params F.varArg) 0)
        = .gfun fFid (.pointer (.func F.retTy F.params F.varArg) 0) := by
      simp [Const.getBitCast, Const.type]
    rw [hfold] at w2al
    show (writeAlias (writeAlias (stD.rauwFunc fFid
        (Const.gfun st.nextId F.ptrTy)) fFid gFid) fFid st.nextId).aliases.drop
        st.aliases.length = _
    simp only [Func.ptrTy, Func.funcType]
    rw [w2al, List.append_assoc, drop_len_append _ _ _ (by simp)]
    simp only [List.singleton_append]
  · -- the surviving private implementation
    rw [findFunc_bump2,
      findFunc_updateFunc _ fFid (fun f => { f with linkage := Linkage.priv })
        (fun _ => rfl), if_pos rfl,
      findFunc_updateFunc _ fFid
        (fun f => { f with alignment := G.alignment ⊔ F.alignment })
        (fun _ => rfl), if_pos rfl, w2f]
    simp only [Option.map_some']
    refine ⟨_, rfl, rfl, rfl, ?_⟩
    show G.alignment ⊔ F.alignment = F.alignment ⊔ G.alignment
    exact Nat.max_comm G.alignment F.alignment

theorem c5_double_weak_merge_witness :
    c5WitState.findFunc 1 = some c5WitF ∧
    (mergeTwoFunctions true c5WitState 1 2).nAliases =
      c5WitState.nAliases + 2 ∧
    (mergeTwoFunctions true c5WitState 1 2).nDoubleWeak =
      c5WitState.nDoubleWeak + 1 :=
  ⟨by decide,
    (c5_double_weak_merge c5WitState 1 2 c5WitF c5WitG (by decide) (by decide)
      (by decide) (by decide) (by decide) (by decide)).2.1,
    (c5_double_weak_merge c5WitState 1 2 c5WitF c5WitG (by decide) (by decide)
      (by decide) (by decide) (by decide) (by decide)).2.2.1⟩


/-- `canLosslesslyBitCastTo` is symmetric: identity, first-classness, equal
vector bit widths and equal pointer address spaces are all symmetric. -/
theorem canLosslesslyBitCastTo_symm (a b : Ty) :
    canLosslesslyBitCastTo a b = canLosslesslyBitCastTo b a := by
  unfold canLosslesslyBitCastTo
  rcases eq_or_ne a b with h | h
  · subst h; rfl
  · rw [if_neg h, if_neg (Ne.symm h)]
    by_cases h1 : a.isFirstClassType <;> by_cases h2 : b.isFirstClassType <;>
      simp [h1, h2]
    cases a <;> cases b <;> simp [eq_comm]

/-- C2: for two constants, neither of which is one of the two functions
under comparison, `enumerate` accepts exactly when they are identical, or
both are null values of equivalent type, or the second can be losslessly
bit-cast to the first's type and the bit-cast of the second to the first's
type is identically the first.  (The source tests
`C1->getType()->canLosslesslyBitCastTo(C2->getType())`; the relation is
symmetric, so this matches the claim's direction.) -/
theorem c2_enumerate_constants_characterization (dl : Option DataLayout)
    (f1 f2 : Nat) (st : EnumState) (c1 c2 : Const)
    (h1 : (Value.constV c1).isFunc f1 = false ∧ (Value.constV c1).isFunc f2 = false)
    (h2 : (Value.constV c2).isFunc f1 = false ∧ (Value.constV c2).isFunc f2 = false) :
    (enumerate dl f1 f2 st (.constV c1) (.constV c2)).1 = true ↔
      (c1 = c2 ∨
        (c1.isNullValue ∧ c2.isNullValue ∧
          isEquivalentType dl c1.type c2.type) ∨
        (canLosslesslyBitCastTo c2.type c1.type ∧
          Const.getBitCast c2 c1.type = c1)) := by
  have hg : ¬(((Value.constV c1).isFunc f1 ∧ (Value.constV c2).isFunc f2) ∨
      ((Value.constV c1).isFunc f2 ∧ (Value.constV c2).isFunc f1)) := by
    simp [h1.1, h1.2]
  rw [enumerate, if_neg hg]
  by_cases he : c1 = c2
  · subst he; simp
  · have hne : Value.constV c1 ≠ Value.constV c2 := by simpa using he
    rw [if_neg hne]
    by_cases hn : (c1.isNullValue ∧ c2.isNullValue ∧
        isEquivalentType dl c1.type c2.type)
    · rw [if_pos hn]
      simp [hn]
    · rw [if_neg hn]
      rw [canLosslesslyBitCastTo_symm c1.type c2.type] at *
      simp only [Bool.and_eq_true, beq_iff_eq]
      constructor
      · rintro ⟨hc, hb⟩
        exact Or.inr (Or.inr ⟨hc, hb.symm⟩)
      · rintro (h | h | ⟨hc, hb⟩)
        · exact absurd h he
        · exact absurd h hn
        · exact ⟨hc, hb.symm⟩

/-- C2 witness: two identical `i32 5` constants are accepted (the
"identical" disjunct). -/
theorem c2_enumerate_constants_instance :
    (enumerate none 0 1 {} (.constV (.intC (.integer 32) 5))
        (.constV (.intC (.integer 32) 5))).1 = true ↔
      (Const.intC (.integer 32) 5 = Const.intC (.integer 32) 5 ∨
        ((Const.intC (.integer 32) 5).isNullValue ∧
          (Const.intC (.integer 32) 5).isNullValue ∧
          isEquivalentType none (Const.intC (.integer 32) 5).type
            (Const.intC (.integer 32) 5).type) ∨
        (canLosslesslyBitCastTo (Const.intC (.integer 32) 5).type
            (Const.intC (.integer 32) 5).type ∧
          Const.getBitCast (Const.intC (.integer 32) 5)
            (Const.intC (.integer 32) 5).type = Const.intC (.integer 32) 5)) :=
  c2_enumerate_constants_characterization none 0 1 {} _ _
    ⟨by decide, by decide⟩ ⟨by decide, by decide⟩


/-- A failed `DenseMap` lookup means the key has no entry. -/
theorem lookup_none_not_mem {α β : Type} [DecidableEq α] :
    ∀ (l : List (α × β)) (a : α), l.lookup a = none → ∀ b, (a, b) ∉ l := by
  intro l a h b hmem
  induction l with
  | nil => simp at hmem
  | cons p t ih =>
      rw [List.lookup] at h
      rcases List.mem_cons.mp hmem with rfl | hm
      · simp at h
      · split at h
        · simp at h
        · exact ih h hm

theorem snd_if_same {α β : Type} (c : Prop) [Decidable c] (a b : α)
    (s : β) : (if c then (a, s) else (b, s)).2 = s := by
  split <;> rfl

theorem enumerate_state_characterization (dl : Option DataLayout)
    (f1 f2 : Nat) (st : EnumState) (v1 v2 : Value) :
    (enumerate dl f1 f2 st v1 v2).2 = st ∨
    (List.lookup v1 st.idMap = none ∧ v2 ∉ st.seen ∧
      (enumerate dl f1 f2 st v1 v2).2 =
        { idMap := (v1, v2) :: st.idMap, seen := v2 :: st.seen }) := by
  cases v1 with
  | constV c =>
      simp only [enumerate]
      split
      · exact Or.inl rfl
      split
      · exact Or.inl rfl
      cases v2 <;> first
        | exact Or.inl rfl
        | exact Or.inl (snd_if_same _ _ _ _)
  | argV f i =>
      simp only [enumerate]
      split
      · exact Or.inl rfl
      split
      · exact Or.inl rfl
      split
      · exact Or.inl rfl
      split
      · exact Or.inl rfl
      · exact Or.inr ⟨by assumption, by assumption, rfl⟩
  | instV f i =>
      simp only [enumerate]
      split
      · exact Or.inl rfl
      split
      · exact Or.inl rfl
      split
      · exact Or.inl rfl
      split
      · exact Or.inl rfl
      · exact Or.inr ⟨by assumption, by assumption, rfl⟩
  | blockV f b =>
      simp only [enumerate]
      split
      · exact Or.inl rfl
      split
      · exact Or.inl rfl
      split
      · exact Or.inl rfl
      split
      · exact Or.inl rfl
      · exact Or.inr ⟨by assumption, by assumption, rfl⟩
  | asmV a =>
      simp only [enumerate]
      split
      · exact Or.inl rfl
      split
      · exact Or.inl rfl
      split
      · exact Or.inl rfl
      split
      · exact Or.inl rfl
      · exact Or.inr ⟨by assumption, by assumption, rfl⟩

theorem enumerate_preserves_inv (dl : Option DataLayout) (f1 f2 : Nat)
    (st : EnumState) (v1 v2 : Value) (h : EnumInv st) :
    EnumInv (enumerate dl f1 f2 st v1 v2).2 := by
  rcases enumerate_state_characterization dl f1 f2 st v1 v2 with
    heq | ⟨hlook, hseen, heq⟩
  · rw [heq]; exact h
  · rw [heq]
    refine ⟨?_, ?_, ?_⟩
    · intro a b b' hab hab'
      rcases List.mem_cons.mp hab with heq1 | hm <;>
        rcases List.mem_cons.mp hab' with heq2 | hm'
      · cases heq1; cases heq2; rfl
      · cases heq1
        exact absurd hm' (lookup_none_not_mem _ _ hlook _)
      · cases heq2
        exact absurd hm (lookup_none_not_mem _ _ hlook _)
      · exact h.1 _ _ _ hm hm'
    · intro a a' b hab hab'
      rcases List.mem_cons.mp hab with heq1 | hm <;>
        rcases List.mem_cons.mp hab' with heq2 | hm'
      · cases heq1; cases heq2; rfl
      · cases heq1
        exact absurd ((h.2.2 _).mpr ⟨_, hm'⟩) hseen
      · cases heq2
        exact absurd ((h.2.2 _).mpr ⟨_, hm⟩) hseen
      · exact h.2.1 _ _ _ hm hm'
    · intro b
      constructor
      · intro hb
        rcases List.mem_cons.mp hb with rfl | hm
        · exact ⟨v1, List.mem_cons_self _ _⟩
        · obtain ⟨a, ha⟩ := (h.2.2 _).mp hm
          exact ⟨a, List.mem_cons_of_mem _ ha⟩
      · rintro ⟨a, ha⟩
        rcases List.mem_cons.mp ha with heq1 | hm
        · cases heq1; exact List.mem_cons_self _ _
        · exact List.mem_cons_of_mem _ ((h.2.2 _).mpr ⟨_, hm⟩)

/-- C3: every sequence of `enumerate` calls within one comparison, starting
from the cleared state, maintains the invariant that the forward map
`id_map` is injective and its image is exactly `seen_values`: no two
F1-values map to the same F2-value, and an F2-value is in `seen_values` iff
some F1-value maps to it. -/
theorem c3_enumerate_sequence_invariant (dl : Option DataLayout)
    (f1 f2 : Nat) (ps : List (Value × Value)) :
    EnumInv (enumSequence dl f1 f2 ps) := by
  have base : EnumInv {} := by
    refine ⟨?_, ?_, ?_⟩ <;> simp [EnumState.idMap, EnumState.seen]
  rw [enumSequence]
  generalize hst : ({} : EnumState) = st0
  rw [hst] at base
  clear hst
  induction ps generalizing st0 with
  | nil => exact base
  | cons p t ih =>
      exact ih _ (enumerate_preserves_inv dl f1 f2 st0 p.1 p.2 base)


/-- C1: the claim says fingerprint equality is necessary for comparator
equivalence, also for functions differing only in blocks the CFG walk never
visits — as `profileFunction`'s own comment promises.  The code violates
it: `compare` accepts `c1FuncF` and `c1FuncG` (the walk never reaches G's
unreachable block) while `profileFunction` folds in `F->size()`, the block
count including unreachable blocks (1 vs 2), so the fingerprints differ. -/
theorem c1_compare_equal_but_profiles_differ :
    fcCompare none c1FuncF c1FuncG = true ∧
    profileFunction c1FuncF ≠ profileFunction c1FuncG := by
  decide

/-- C4: `cmpType` makes an address-space-0 pointer equal (result 0) to the
pointer-sized integer type exactly when a layout oracle is present; without
one the two types are ordered by their kind tags (`Pointer` = 14 vs
`Integer` = 10) and never compare equal, in either order. -/
theorem c4_cmpType_pointer_intptr_iff_layout (dl : DataLayout) (e e' : Ty)
    (n : Nat) :
    (cmpType (some dl) (.pointer e 0) (.integer dl.ptrSizeBits) = 0 ∧
      cmpType (some dl) (.integer dl.ptrSizeBits) (.pointer e 0) = 0) ∧
    (cmpType none (.pointer e' 0) (.integer n) =
        cmpNumbers (Ty.pointer e' 0).typeID (Ty.integer n).typeID ∧
      cmpType none (.pointer e' 0) (.integer n) ≠ 0 ∧
      cmpType none (.integer n) (.pointer e' 0) ≠ 0) := by
  refine ⟨⟨?_, ?_⟩, ?_, ?_, ?_⟩ <;>
    simp [cmpType, cmpTypeAux, coerce, cmpNumbers, Ty.typeID]

/-- C7: a newcomer whose body is a single basic block of at most two
instructions is never merged: on a collision with an equivalent incumbent,
`insert` returns `false` and leaves the whole pass state — module, set,
counters — unchanged. -/
theorem c7_insert_tiny_newcomer_unchanged (dl : Option DataLayout)
    (hasAliases : Bool) (st : PassState) (fid : Nat) (f : Func)
    (hf : st.findFunc fid = some f)
    (hcoll : (findCollision dl st f).isSome = true)
    (hsize : f.blocks.length = 1)
    (htiny : (f.blocks.headD ⟨0, []⟩).instrs.length ≤ 2) :
    insertFn dl hasAliases st fid = (false, st) := by
  obtain ⟨old, hold⟩ := Option.isSome_iff_exists.mp hcoll
  cases hbl : f.blocks with
  | nil => rw [hbl] at hsize; simp at hsize
  | cons b rest =>
      cases rest with
      | cons c t => rw [hbl] at hsize; simp at hsize
      | nil =>
          rw [hbl] at htiny
          simp [List.headD] at htiny
          simp [insertFn, hf, hold, hbl, htiny]

/-- C7 witness: the tiny-function fixture, where function 4 collides with
the seated identical function 3 and nothing changes. -/
theorem c7_insert_tiny_newcomer_unchanged_witness :
    insertFn none false c7State 4 = (false, c7State) :=
  c7_insert_tiny_newcomer_unchanged none false c7State 4 c7TinyFunc
    (by decide) (by decide) (by decide) (by decide)

/-- C9: the claim states the source's assert at lines 919-921 — a strong
newcomer never collides with a weak incumbent — holds in every reachable
driver state.  The code violates it: in `c9TestModule`, merging G into F
rewrites and re-queues S; the weak W (identical to the rewritten S) is
seated by iteration 1's weak pass, and in iteration 2 the re-queued strong
S collides with the weak incumbent W, so the recorded assertion fails. -/
theorem c9_strong_newcomer_weak_incumbent_assert_fails :
    (runOnModule none false 10 c9TestModule).assertOk = false ∧
    (runOnModule none false 10 c9TestModule).completed = true := by
  decide

/-- C10: the claim says `removeUsers(V)` removes exactly the functions
containing an instruction using V directly or through a chain of non-global
constants.  The code misses chains of exactly one constant: for each
constant user `C` it pushes `C`'s users and then scans *their* users, so an
instruction that is itself a user of `C` never has its parent removed.  In
`c10ChainState`, function 2 uses function 1 through one bitcast constant
and stays seated; the direct-use fixture shows `remove` working as claimed
one level up. -/
theorem c10_removeUsers_misses_one_constant_chain :
    removeUsers c10ChainState (.constV (.gfun 1 voidFnPtrTy)) = c10ChainState ∧
    c10ChainState.fnSet = [2] ∧
    (removeUsers c10DirectState (.constV (.gfun 1 voidFnPtrTy))).fnSet = [] ∧
    (removeUsers c10DirectState (.constV (.gfun 1 voidFnPtrTy))).deferred = [3] := by
  decide

/-- An `insert` that returns `false` (unique newcomer or tiny-function
veto) touches neither the module nor the deferral queue. -/
theorem insertFn_false_frame (dl : Option DataLayout) (has : Bool)
    (st : PassState) (fid : Nat) (st' : PassState)
    (h : insertFn dl has st fid = (false, st')) :
    st'.funcs = st.funcs ∧ st'.aliases = st.aliases ∧
      st'.deferred = st.deferred := by
  rw [insertFn] at h
  rcases hf : st.findFunc fid with _ | f <;> rw [hf] at h <;> dsimp only at h
  · cases h; exact ⟨rfl, rfl, rfl⟩
  · rcases hc : findCollision dl st f with _ | old <;> rw [hc] at h <;>
      dsimp only at h
    · cases h; exact ⟨rfl, rfl, rfl⟩
    · split at h
      · cases h; exact ⟨rfl, rfl, rfl⟩
      · simp at h

/-- A sweep all of whose inserts returned `false` leaves the module and the
deferral queue unchanged. -/
theorem passSweep_false_frame (dl : Option DataLayout) (has strong : Bool) :
    ∀ (ws : List Nat) (st st' : PassState),
      passSweep dl has strong st ws = (false, st') →
      st'.funcs = st.funcs ∧ st'.aliases = st.aliases ∧
        st'.deferred = st.deferred := by
  intro ws
  induction ws with
  | nil =>
      intro st st' h
      rw [passSweep] at h
      cases h
      exact ⟨rfl, rfl, rfl⟩
  | cons fid rest ih =>
      intro st st' h
      rw [passSweep] at h
      cases hf : st.findFunc fid with
      | none =>
          rw [hf] at h; dsimp only at h
          exact ih st st' h
      | some f =>
          rw [hf] at h; dsimp only at h
          by_cases hcond : ¬f.isDeclaration = true ∧
              ¬f.linkage = Linkage.availableExternally ∧
              (if strong = true then ¬f.mayBeOverridden = true
               else f.mayBeOverridden = true)
          · rw [if_pos hcond] at h
            rcases hr : insertFn dl has st fid with ⟨b1, st1⟩
            rw [hr] at h
            rcases hp : passSweep dl has strong st1 rest with ⟨b2, st2⟩
            rw [hp] at h
            simp only [Prod.mk.injEq, Bool.or_eq_false_iff] at h
            obtain ⟨⟨hb1, hb2⟩, hst⟩ := h
            subst hst
            obtain ⟨e1, e2, e3⟩ := insertFn_false_frame dl has st fid st1 (by rw [hr, hb1])
            obtain ⟨g1, g2, g3⟩ := ih st1 st2 (by rw [hp, hb2])
            exact ⟨g1.trans e1, g2.trans e2, g3.trans e3⟩
          · rw [if_neg hcond] at h
            exact ih st st' h

/-- A driver loop that reports no change leaves the module unchanged. -/
theorem runLoop_false_frame (dl : Option DataLayout) (has : Bool) :
    ∀ (fuel : Nat) (st : PassState) (changed : Bool),
      (runLoop dl has fuel st changed).1 = false →
      changed = false ∧
        (runLoop dl has fuel st changed).2.1.funcs = st.funcs ∧
        (runLoop dl has fuel st changed).2.1.aliases = st.aliases := by
  intro fuel
  induction fuel with
  | zero =>
      intro st changed h
      rw [runLoop] at h ⊢
      exact ⟨h, rfl, rfl⟩
  | succ fuel ih =>
      intro st changed h
      rw [runLoop] at h ⊢
      rcases h1 : passSweep dl has true { st with deferred := [] } st.deferred
        with ⟨b1, s1⟩
      rcases h2 : passSweep dl has false s1 st.deferred with ⟨b2, s2⟩
      simp only [h1, h2] at h ⊢
      by_cases hemp : s2.deferred.isEmpty = true
      · rw [if_pos hemp] at h ⊢
        simp only [Bool.or_eq_false_iff] at h
        obtain ⟨⟨hc, hb1⟩, hb2⟩ := h
        subst hb1; subst hb2
        obtain ⟨e1, e2, -⟩ :=
          passSweep_false_frame dl has true st.deferred _ _ h1
        obtain ⟨g1, g2, -⟩ :=
          passSweep_false_frame dl has false st.deferred _ _ h2
        exact ⟨hc, g1.trans e1, g2.trans e2⟩
      · rw [if_neg hemp] at h ⊢
        obtain ⟨hcb, hf, ha⟩ := ih s2 (changed || b1 || b2) h
        simp only [Bool.or_eq_false_iff] at hcb
        obtain ⟨⟨hc, hb1⟩, hb2⟩ := hcb
        subst hb1; subst hb2
        obtain ⟨e1, e2, -⟩ :=
          passSweep_false_frame dl has true st.deferred _ _ h1
        obtain ⟨g1, g2, -⟩ :=
          passSweep_false_frame dl has false st.deferred _ _ h2
        refine ⟨hc, ?_, ?_⟩
        · rw [hf, g1, e1]
        · rw [ha, g2, e2]

/-- C8, amended: the claim as stated — a second complete run always
reports no change — is false (see the counterexample: thunks written by the
first run are never re-inserted during that run, and two identical thunks
with more than two instructions merge in the second run).  What holds is
the claim restricted to runs that performed no merge: when a run reports no
change it has left the module unchanged, and running the pass again also
reports no change. -/
theorem c8_no_change_run_is_idempotent (dl : Option DataLayout) (has : Bool)
    (fuel : Nat) (m : Module)
    (h : (runOnModule dl has fuel m).changed = false) :
    (runOnModule dl has fuel m).module = m ∧
    (runOnModule dl has fuel ((runOnModule dl has fuel m).module)).changed
      = false := by
  have key : (runOnModule dl has fuel m).module = m := by
    rw [runOnModule] at h ⊢
    obtain ⟨-, hf, ha⟩ := runLoop_false_frame dl has fuel _ false h
    simp only [hf, ha]
  exact ⟨key, by rw [key]; exact h⟩

/-- C8 witness: on a single-function module the run reports no change, and
running again changes nothing. -/
theorem c8_no_change_run_is_idempotent_instance :
    (runOnModule (some exDL64) false 10 c8UnchangedModule).module
        = c8UnchangedModule ∧
    (runOnModule (some exDL64) false 10
        (runOnModule (some exDL64) false 10 c8UnchangedModule).module).changed
      = false :=
  c8_no_change_run_is_idempotent (some exDL64) false 10 c8UnchangedModule
    (by decide)

/-- C8 counterexample: on `c8TestModule` the first run merges the two
`i8*` functions into thunks of three instructions each; both runs complete
(reach the empty deferral queue), and the second run merges the two
identical thunks and reports a change. -/
theorem c8_second_run_reports_change :
    (runOnModule (some exDL64) false 10 c8TestModule).completed = true ∧
    (runOnModule (some exDL64) false 10
        (runOnModule (some exDL64) false 10 c8TestModule).module).completed
      = true ∧
    (runOnModule (some exDL64) false 10
        (runOnModule (some exDL64) false 10 c8TestModule).module).changed
      = true := by
  decide


/-! #### Claim C6: the thunk writer -/
theorem createCast_eq_spec (nid : Nat) (src : Operand) (sty dty : Ty) :
    createCast nid src sty dty =
      if sty = dty then (src, [], nid)
      else (.regO nid,
        [{ iid := nid, op := specCastOp sty dty, ty := dty,
           operands := [src] }], nid + 1) := by
  rw [createCast.eq_def]
  by_cases h : sty = dty
  · simp [h]
  · rw [if_neg h, if_neg h]
    cases sty <;> cases dty <;> rfl

theorem buildArgCasts_eq_spec (fp : List Ty) : ∀ (gl : List Ty) (i nid : Nat),
    buildArgCasts fp i nid gl = specArgCasts fp i nid gl := by
  intro gl
  induction gl with
  | nil => intro i nid; rfl
  | cons gty rest ih =>
      intro i nid
      rw [buildArgCasts, specArgCasts, createCast_eq_spec]
      by_cases h : gty = fp.getD i .void
      · subst h
        simp only [eq_self_iff_true, if_true]
        rw [ih]
        simp
      · rw [if_neg h, if_neg h]
        simp only []
        rw [ih]
        simp

theorem thunkBody_eq_spec (fFid : Nat) (F G : Func) :
    thunkBody fFid F G = specThunkBody fFid F G := by
  rw [thunkBody, specThunkBody]
  simp only [buildArgCasts_eq_spec]
  by_cases hv : G.retTy = .void
  · simp [hv]
  · rw [if_neg hv, if_neg hv, createCast_eq_spec]
    by_cases he : F.retTy = G.retTy
    · simp [he]
    · simp [he]

/-! Substitution leaves a thunk body unchanged (its only constant operand
is the callee F, which is not the replaced function). -/

theorem buildArgCasts_instrs_subst (g : Nat) (r : Const) (fp : List Ty) :
    ∀ (gl : List Ty) (i nid : Nat),
    ((buildArgCasts fp i nid gl).2.1).map
        (fun ins => { ins with operands := ins.operands.map (·.substG g r) })
      = (buildArgCasts fp i nid gl).2.1 := by
  intro gl
  induction gl with
  | nil => intro i nid; rfl
  | cons gty rest ih =>
      intro i nid
      rw [buildArgCasts, createCast_eq_spec]
      by_cases h : gty = fp.getD i .void
      · simp only [h, if_pos rfl]
        exact ih _ _
      · rw [if_neg h]
        simp only [List.map_cons, List.map_nil, List.append_eq,
          List.nil_append, List.cons_append]
        rw [ih]
        rfl

theorem buildArgCasts_args_subst (g : Nat) (r : Const) (fp : List Ty) :
    ∀ (gl : List Ty) (i nid : Nat),
    ((buildArgCasts fp i nid gl).1).map (·.substG g r)
      = (buildArgCasts fp i nid gl).1 := by
  intro gl
  induction gl with
  | nil => intro i nid; rfl
  | cons gty rest ih =>
      intro i nid
      rw [buildArgCasts, createCast_eq_spec]
      by_cases h : gty = fp.getD i .void
      · simp only [h, if_pos rfl, List.map_cons]
        rw [ih]
        rfl
      · rw [if_neg h]
        simp only [List.map_cons]
        rw [ih]
        rfl

theorem thunkBody_subst (fFid gFid : Nat) (r : Const) (F G : Func)
    (h : ¬ fFid = gFid) :
    (thunkBody fFid F G).map
        (fun ins => { ins with operands := ins.operands.map (·.substG gFid r) })
      = thunkBody fFid F G := by
  rw [thunkBody]
  simp only [List.map_append, List.map_cons, List.map_nil]
  rw [buildArgCasts_instrs_subst, buildArgCasts_args_subst]
  simp only [Operand.substG, Const.substG, h, if_neg, if_false]
  by_cases hv : G.retTy = .void
  · simp [hv, Operand.substG]
  · rw [if_neg hv, createCast_eq_spec]
    by_cases he : F.retTy = G.retTy
    · simp [he, Operand.substG]
    · simp [he, Operand.substG]

@[simp] theorem findFunc_bumpT (x : PassState) (b : Nat) :
    (PassState.mk x.funcs x.aliases x.fnSet x.deferred x.nMerged
      (x.nThunks + 1) x.nAliases x.nDoubleWeak x.assertOk x.nextId).findFunc b =
      x.findFunc b := rfl

/-! `replaceDirectCallers` frame and lookup lemmas. -/

theorem rdc_frame (st : PassState) (o n : Nat) :
    (replaceDirectCallers st o n).aliases = st.aliases ∧
    (replaceDirectCallers st o n).nMerged = st.nMerged ∧
    (replaceDirectCallers st o n).nThunks = st.nThunks ∧
    (replaceDirectCallers st o n).nAliases = st.nAliases ∧
    (replaceDirectCallers st o n).nDoubleWeak = st.nDoubleWeak ∧
    (replaceDirectCallers st o n).assertOk = st.assertOk ∧
    (replaceDirectCallers st o n).nextId = st.nextId := by
  rw [replaceDirectCallers.eq_def]
  cases ho : st.findFunc o with
  | none => simp
  | some oldF =>
      cases hn : st.findFunc n with
      | none => simp
      | some newF =>
          simp only []
          obtain ⟨e1, e2, e3, e4, e5, e6, e7, e8⟩ :=
            foldl_removeFn_sameModule
              (st.funcs.filterMap fun f =>
                if f.allInstrs.any (·.calleeIs o) then some f.fid else none) st
          exact ⟨e2, e3, e4, e5, e6, e7, e8⟩

theorem rdc_findFunc (st : PassState) (o n : Nat) (oldF newF : Func)
    (ho : st.findFunc o = some oldF) (hn : st.findFunc n = some newF)
    (b : Nat) :
    (replaceDirectCallers st o n).findFunc b =
      (st.findFunc b).map (Func.retargetCalls · o
        (Const.getBitCast (.gfun n newF.ptrTy) oldF.ptrTy)) := by
  rw [replaceDirectCallers.eq_def, ho, hn]
  simp only []
  obtain ⟨e1, e2, e3, e4, e5, e6, e7, e8⟩ :=
    foldl_removeFn_sameModule
      (st.funcs.filterMap fun f =>
        if f.allInstrs.any (·.calleeIs o) then some f.fid else none) st
  show (((st.funcs.filterMap _).foldl removeFn st).funcs.map _).find? _ = _
  rw [e1]
  exact find?_fid_map
    (Func.retargetCalls · o (Const.getBitCast (.gfun n newF.ptrTy) oldF.ptrTy))
    (fun _ => rfl) b st.funcs

theorem rdc_fids (st : PassState) (o n : Nat) :
    (replaceDirectCallers st o n).funcs.map (·.fid) =
      st.funcs.map (·.fid) := by
  rw [replaceDirectCallers.eq_def]
  cases ho : st.findFunc o with
  | none => simp
  | some oldF =>
      cases hn : st.findFunc n with
      | none => simp
      | some newF =>
          simp only []
          obtain ⟨e1, e2, e3, e4, e5, e6, e7, e8⟩ :=
            foldl_removeFn_sameModule
              (st.funcs.filterMap fun f =>
                if f.allInstrs.any (·.calleeIs o) then some f.fid else none) st
          show (((st.funcs.filterMap _).foldl removeFn st).funcs.map _).map _ = _
          rw [e1]
          exact map_fid_congr
            (Func.retargetCalls · o
              (Const.getBitCast (.gfun n newF.ptrTy) oldF.ptrTy))
            (fun _ => rfl) st.funcs

/-- The full effect of the thunk-construction tail `writeThunkBuild`: a
fresh function with G's header and the thunk body appears under the fresh
id, G's entry disappears from the function list, every alias of G now
aliases the thunk, the thunk statistic rises by one and one fresh id is
consumed. -/
theorem writeThunkBuild_effect (st : PassState) (f g : Nat) (F G : Func)
    (hfg : ¬ f = g) (hgn : ¬ g = st.nextId)
    (hfresh : st.funcs.all (fun x => x.fid < st.nextId) = true) :
    (writeThunkBuild st f g F G).findFunc st.nextId = some
      { fid := st.nextId, name := G.name, linkage := G.linkage,
        attrs := G.attrs, cc := G.cc, gc := G.gc, section_ := G.section_,
        unnamedAddr := G.unnamedAddr, visibility := G.visibility,
        alignment := G.alignment, retTy := G.retTy, params := G.params,
        varArg := G.varArg,
        blocks := [{ bid := 0, instrs := thunkBody f F G }] } ∧
    (writeThunkBuild st f g F G).funcs.map (·.fid) =
      (st.funcs.map (·.fid)).filter (· ≠ g) ++ [st.nextId] ∧
    (writeThunkBuild st f g F G).aliases =
      st.aliases.map (fun a => { a with aliasee := a.aliasee.substG g (.gfun st.nextId G.ptrTy) }) ∧
    (writeThunkBuild st f g F G).nThunks = st.nThunks + 1 ∧
    (writeThunkBuild st f g F G).nMerged = st.nMerged ∧
    (writeThunkBuild st f g F G).nAliases = st.nAliases ∧
    (writeThunkBuild st f g F G).nDoubleWeak = st.nDoubleWeak ∧
    (writeThunkBuild st f g F G).assertOk = st.assertOk ∧
    (writeThunkBuild st f g F G).nextId = st.nextId + 1 := by
  have hng : ¬ st.nextId = g := fun h => hgn h.symm
  simp only [writeThunkBuild]
  generalize hD :
    removeUsers
      (((({ st with funcs := _, nextId := _ } : PassState).updateFunc _ _).updateFunc _ _).updateFunc _ _)
      (.constV (.gfun g G.ptrTy)) = stD
  have hDsm : sameModule _ stD := hD ▸ removeUsers_sameModule _ _
  obtain ⟨hDfuncs, hDaliases, hDm, hDt, hDa, hDw, hDok, hDnext⟩ := hDsm
  refine ⟨?_, ?_, ?_, ?_, ?_, ?_, ?_, ?_, ?_⟩
  · -- the new function under the fresh id
    rw [findFunc_bumpT, findFunc_eraseFunc, if_neg hng, findFunc_rauwFunc,
      findFunc_eq_of_funcs_eq hDfuncs st.nextId,
      findFunc_updateFunc _ g (fun x => { x with name := none })
        (fun _ => rfl), if_neg hng,
      findFunc_updateFunc _ st.nextId (fun n => { n with name := G.name })
        (fun _ => rfl), if_pos rfl,
      findFunc_updateFunc _ st.nextId (fun n => n.copyAttributesFrom G)
        (fun _ => rfl), if_pos rfl]
    simp only [PassState.findFunc]
    rw [find?_append_none (find?_fid_none_of_fresh hfresh)]
    simp only [List.find?, beq_self_eq_true]
    simp only [Option.map_some']
    simp only [Func.substBlocks, Func.copyAttributesFrom, List.map_cons,
      List.map_nil]
    rw [thunkBody_subst f g _ F G hfg]
  · -- function ids
    have hifa : ∀ x : Func,
        ((if x.fid = st.nextId then x.copyAttributesFrom G else x) : Func).fid
          = x.fid := fun x => by split <;> rfl
    have hifb : ∀ x : Func,
        ((if x.fid = st.nextId then { x with name := G.name } else x) :
          Func).fid = x.fid := fun x => by split <;> rfl
    have hifc : ∀ x : Func,
        ((if x.fid = g then { x with name := none } else x) : Func).fid
          = x.fid := fun x => by split <;> rfl
    show ((((stD.rauwFunc g _).eraseFunc g).funcs).map _) = _
    simp only [PassState.eraseFunc, PassState.rauwFunc]
    rw [hDfuncs]
    simp only [PassState.updateFunc]
    rw [map_fid_filterne,
      map_fid_congr (Func.substBlocks · g (.gfun st.nextId G.ptrTy))
        (fun _ => rfl),
      map_fid_congr _ hifc, map_fid_congr _ hifb, map_fid_congr _ hifa]
    simp only [List.map_append, List.map_cons, List.map_nil,
      List.filter_append]
    have h1 : List.filter (fun x => decide (x ≠ g)) [st.nextId]
        = [st.nextId] := by simp [hng]
    rw [h1]
  · -- aliases
    show (((stD.rauwFunc g _).eraseFunc g).aliases) = _
    simp only [PassState.eraseFunc, PassState.rauwFunc]
    rw [hDaliases]
    simp only [PassState.updateFunc]
  · exact congrArg (· + 1) hDt
  · exact hDm
  · exact hDa
  · exact hDw
  · exact hDok
  · exact hDnext

theorem all_fid_lt_of_map {l : List Func} {n : Nat}
    (h : (l.map (·.fid)).all (· < n) = true) :
    l.all (fun x => x.fid < n) = true := by
  rw [List.all_eq_true] at h ⊢
  intro x hx
  have := h x.fid (List.mem_map_of_mem _ hx)
  simpa using this

/-- Claim C6: `writeThunk` either erases a use-free local G outright, or
builds a fresh thunk with G's signature, linkage, attributes and name,
whose single block is `specThunkBody` (argument casts by the
int-to-pointer / pointer-to-int / bitcast rule, a tail call to F with F's
calling convention, and the void or cast-back return), replaces all of G's
uses by it and erases G. -/
theorem c6_writeThunk_characterization (st : PassState) (fFid gFid : Nat)
    (F G : Func) (hF : st.findFunc fFid = some F)
    (hG : st.findFunc gFid = some G) (hne : ¬ fFid = gFid)
    (hfresh : st.funcs.all (fun x => x.fid < st.nextId) = true) :
    ((G.hasLocalLinkage = true ∧
        (((if ¬ G.mayBeOverridden then replaceDirectCallers st gFid fFid
            else st)).usersOf (.constV (.gfun gFid G.ptrTy))).isEmpty = true) →
      (writeThunk st fFid gFid).funcs.map (·.fid) =
          (st.funcs.map (·.fid)).filter (· ≠ gFid) ∧
      (writeThunk st fFid gFid).aliases = st.aliases ∧
      (writeThunk st fFid gFid).nThunks = st.nThunks ∧
      (writeThunk st fFid gFid).nextId = st.nextId) ∧
    (¬ (G.hasLocalLinkage = true ∧
        (((if ¬ G.mayBeOverridden then replaceDirectCallers st gFid fFid
            else st)).usersOf (.constV (.gfun gFid G.ptrTy))).isEmpty = true) →
      (∃ T, (writeThunk st fFid gFid).findFunc st.nextId = some T ∧
        T.name = G.name ∧ T.linkage = G.linkage ∧ T.attrs = G.attrs ∧
        T.cc = G.cc ∧ T.retTy = G.retTy ∧ T.params = G.params ∧
        T.varArg = G.varArg ∧
        T.blocks = [{ bid := 0, instrs := specThunkBody fFid F G }]) ∧
      (writeThunk st fFid gFid).funcs.map (·.fid) =
        (st.funcs.map (·.fid)).filter (· ≠ gFid) ++ [st.nextId] ∧
      (writeThunk st fFid gFid).aliases =
        st.aliases.map (fun a => { a with aliasee := a.aliasee.substG gFid (.gfun st.nextId G.ptrTy) }) ∧
      (writeThunk st fFid gFid).nThunks = st.nThunks + 1 ∧
      (writeThunk st fFid gFid).nMerged = st.nMerged ∧
      (writeThunk st fFid gFid).nAliases = st.nAliases ∧
      (writeThunk st fFid gFid).nextId = st.nextId + 1) := by
  have hgn : ¬ gFid = st.nextId := by
    have := fid_lt_of_findFunc hG hfresh
    omega
  by_cases hov : G.mayBeOverridden = true
  · have hifr : (if ¬ G.mayBeOverridden then
        replaceDirectCallers st gFid fFid else st) = st :=
      if_neg (fun hc => hc hov)
    rw [hifr]
    rw [writeThunk.eq_def, hG]
    simp only []
    rw [hifr, hG, hF]
    simp only []
    by_cases hcond : G.hasLocalLinkage = true ∧
        (st.usersOf (.constV (.gfun gFid G.ptrTy))).isEmpty = true
    · rw [if_pos hcond]
      refine ⟨fun _ => ⟨?_, rfl, rfl, rfl⟩, fun hmain => absurd hcond hmain⟩
      show ((st.funcs.filter _).map _) = _
      exact map_fid_filterne gFid st.funcs
    · rw [if_neg hcond]
      obtain ⟨e1, e2, e3, e4, e5, e6, e7, e8, e9⟩ :=
        writeThunkBuild_effect st fFid gFid F G hne hgn hfresh
      refine ⟨fun hexc => absurd hexc hcond, fun _ => ?_⟩
      refine ⟨⟨_, e1, rfl, rfl, rfl, rfl, rfl, rfl, rfl, ?_⟩,
        e2, e3, e4, e5, e6, e9⟩
      exact congrArg (fun l => [Block.mk 0 l]) (thunkBody_eq_spec fFid F G)
  · have hifr : (if ¬ G.mayBeOverridden then
        replaceDirectCallers st gFid fFid else st)
          = replaceDirectCallers st gFid fFid := if_pos hov
    rw [hifr]
    rw [writeThunk.eq_def, hG]
    simp only []
    rw [hifr]
    have hG1 : (replaceDirectCallers st gFid fFid).findFunc gFid =
        some (G.retargetCalls gFid
          (Const.getBitCast (.gfun fFid F.ptrTy) G.ptrTy)) := by
      rw [rdc_findFunc st gFid fFid G F hG hF gFid, hG]
      rfl
    have hF1 : (replaceDirectCallers st gFid fFid).findFunc fFid =
        some (F.retargetCalls gFid
          (Const.getBitCast (.gfun fFid F.ptrTy) G.ptrTy)) := by
      rw [rdc_findFunc st gFid fFid G F hG hF fFid, hF]
      rfl
    rw [hG1, hF1]
    simp only []
    simp only [retargetCalls_hasLocalLinkage, retargetCalls_ptrTy]
    obtain ⟨r1, r2, r3, r4, r5, r6, r7⟩ := rdc_frame st gFid fFid
    by_cases hcond : G.hasLocalLinkage = true ∧
        ((replaceDirectCallers st gFid fFid).usersOf
          (.constV (.gfun gFid G.ptrTy))).isEmpty = true
    · rw [if_pos hcond]
      refine ⟨fun _ => ⟨?_, ?_, ?_, ?_⟩, fun hmain => absurd hcond hmain⟩
      · show (((replaceDirectCallers st gFid fFid).funcs.filter _).map _) = _
        rw [map_fid_filterne, rdc_fids]
      · exact r1
      · exact r3
      · exact r7
    · rw [if_neg hcond]
      have hfresh1 : (replaceDirectCallers st gFid fFid).funcs.all
          (fun x => x.fid < (replaceDirectCallers st gFid fFid).nextId)
            = true := by
        apply all_fid_lt_of_map
        rw [rdc_fids, r7]
        rw [List.all_eq_true] at hfresh ⊢
        intro x hx
        obtain ⟨y, hy, hyx⟩ := List.mem_map.mp hx
        have := hfresh y hy
        subst hyx
        simpa using this
      have hgn1 : ¬ gFid = (replaceDirectCallers st gFid fFid).nextId := by
        rw [r7]; exact hgn
      obtain ⟨e1, e2, e3, e4, e5, e6, e7, e8, e9⟩ :=
        writeThunkBuild_effect (replaceDirectCallers st gFid fFid) fFid gFid
          (F.retargetCalls gFid (Const.getBitCast (.gfun fFid F.ptrTy) G.ptrTy))
          (G.retargetCalls gFid (Const.getBitCast (.gfun fFid F.ptrTy) G.ptrTy))
          hne hgn1 hfresh1
      refine ⟨fun hexc => absurd hexc hcond, fun _ => ?_⟩
      rw [r7] at e1 e2 e3 e9
      rw [rdc_fids] at e2
      rw [r1] at e3
      rw [r3] at e4
      rw [r2] at e5
      rw [r4] at e6
      have hbody : thunkBody fFid
          (F.retargetCalls gFid (Const.getBitCast (.gfun fFid F.ptrTy) G.ptrTy))
          (G.retargetCalls gFid (Const.getBitCast (.gfun fFid F.ptrTy) G.ptrTy))
          = specThunkBody fFid F G :=
        (thunkBody_eq_spec fFid _ _).trans rfl
      refine ⟨⟨_, e1, rfl, rfl, rfl, rfl, rfl, rfl, rfl, ?_⟩,
        e2, ?_, e4, e5, e6, e9⟩
      · exact congrArg (fun l => [Block.mk 0 l]) hbody
      · exact e3

theorem c6_writeThunk_characterization_witness :
    (writeThunk c6WitState 1 2).nThunks = c6WitState.nThunks + 1 ∧
    (writeThunk c6WitState 1 2).funcs.map (·.fid) =
      (c6WitState.funcs.map (·.fid)).filter (· ≠ 2) ++ [c6WitState.nextId] :=
  And.intro
    (((c6_writeThunk_characterization c6WitState 1 2 c6WitF c6WitG (by decide)
        (by decide) (by decide) (by decide)).2 (by decide)).2.2.2.1)
    (((c6_writeThunk_characterization c6WitState 1 2 c6WitF c6WitG (by decide)
        (by decide) (by decide) (by decide)).2 (by decide)).2.1)

end MergeFunc
